import Mathlib

/-!
Verification of the kalshi-sports-alpha strategy and backtest core.

This file gives a shallow embedding, over the rationals, of the decision and
backtest code of the repository (signal aggregation, expected-value
estimation, Kelly position sizing, portfolio exposure limiting,
recommendation ranking, fill simulation and the backtest replay loop), and
proves or refutes the specification claims about it.

Python floats are modelled as rational numbers, Python `int()` conversion as
truncation toward zero, dictionaries as insertion-ordered association lists,
and the module-level random source as an explicit stream of draws.
-/

namespace KalshiAlpha

/-- Python `int(x)`: truncation toward zero. -/
def pyInt (x : ℚ) : ℤ := if 0 ≤ x then ⌊x⌋ else ⌈x⌉

/-- Python dictionary update `d[k] = v`: replace the value at an existing key
in place, otherwise append the new binding (insertion order semantics). -/
def dictInsert {K V : Type} [DecidableEq K] : List (K × V) → K → V → List (K × V)
  | [], k, v => [(k, v)]
  | (k0, v0) :: rest, k, v =>
    if k0 = k then (k, v) :: rest else (k0, v0) :: dictInsert rest k v

/-- Python `d.get(k, default)` on an association list. -/
def dictGetD {K V : Type} [DecidableEq K] (l : List (K × V)) (k : K) (d : V) : V :=
  match l.find? (fun kv => kv.1 = k) with
  | some kv => kv.2
  | none => d

/-- Python `k in d` on an association list. -/
def dictMem {K V : Type} [DecidableEq K] (l : List (K × V)) (k : K) : Bool :=
  l.any (fun kv => kv.1 = k)

/-! ## Signal data model (`signals/signal_base.py`) -/

/-- `SignalDirection` enum. -/
inductive SignalDirection
  | YES
  | NO
  | NEUTRAL
  deriving DecidableEq, Repr, Inhabited

/-- `Signal` dataclass (the fields used by the strategy layer; `rationale`
and `metadata` are irrelevant to the claims and omitted).  `__post_init__`
clamps `strength` and `confidence` into `[0,1]`; `Signal.make` below models
construction. -/
structure Signal where
  name : String
  direction : SignalDirection
  strength : ℚ
  confidence : ℚ
  market_id : String
  features_used : List String
  deriving DecidableEq, Repr, Inhabited

/-- Constructing a `Signal` clamps `strength` and `confidence` to `[0,1]`
(`Signal.__post_init__`). -/
def Signal.make (name : String) (direction : SignalDirection) (strength confidence : ℚ)
    (market_id : String) (features_used : List String) : Signal :=
  { name := name
    direction := direction
    strength := max 0 (min 1 strength)
    confidence := max 0 (min 1 confidence)
    market_id := market_id
    features_used := features_used }

/-- `Signal.composite_score = strength * confidence`. -/
def Signal.composite_score (s : Signal) : ℚ := s.strength * s.confidence

/-! ## Signal aggregation (`strategy/aggregator.py`) -/

/-- `compute_feature_overlap`: Jaccard similarity of the `features_used`
sets; 0 if either set is empty. -/
def compute_feature_overlap (a b : Signal) : ℚ :=
  let fa : Finset String := a.features_used.toFinset
  let fb : Finset String := b.features_used.toFinset
  if fa = ∅ ∨ fb = ∅ then 0
  else if fa ∪ fb = ∅ then 0
  else ((fa ∩ fb).card : ℚ) / ((fa ∪ fb).card : ℚ)

/-- `tuple(sorted([a, b]))` for the two signal names. -/
def sortedKey (a b : String) : String × String :=
  if a < b then (a, b) else (b, a)

/-- The ordered pairs visited by the double loop
`for i, sig_a in enumerate(signals): for sig_b in signals[i+1:]`. -/
def upperPairs : List Signal → List (Signal × Signal)
  | [] => []
  | a :: rest => rest.map (fun b => (a, b)) ++ upperPairs rest

/-- `compute_pairwise_correlations`: a dict keyed by the sorted name pair,
filled pair by pair (later pairs with an equal key overwrite earlier ones). -/
def compute_pairwise_correlations (signals : List Signal) :
    List ((String × String) × ℚ) :=
  (upperPairs signals).foldl
    (fun d ab => dictInsert d (sortedKey ab.1.name ab.2.name) (compute_feature_overlap ab.1 ab.2))
    []

/-- `AggregatedSignal` dataclass. -/
structure AggregatedSignal where
  market_id : String
  direction : SignalDirection
  aggregate_score : ℚ
  confidence : ℚ
  contributing_signals : List Signal
  weights_used : List (String × ℚ)
  feature_correlations : List ((String × String) × ℚ)
  avg_correlation : ℚ
  independent_signal_count : ℚ
  deriving DecidableEq, Repr

/-- `AggregatedSignal.signal_count`. -/
def AggregatedSignal.signal_count (a : AggregatedSignal) : ℕ :=
  a.contributing_signals.length

/-- `AggregatedSignal.agreement_ratio`: fraction of contributing signals whose
direction matches the aggregate direction (0 when there are none). -/
def AggregatedSignal.agreement_ratio (a : AggregatedSignal) : ℚ :=
  if a.contributing_signals = [] then 0
  else ((a.contributing_signals.filter (fun s => s.direction = a.direction)).length : ℚ)
      / (a.contributing_signals.length : ℚ)

/-- `SignalAggregator` configuration (constructor arguments). -/
structure AggregatorConfig where
  weights : List (String × ℚ) := []
  min_signals : ℕ := 2
  require_agreement : Bool := true
  min_agreement_ratio : ℚ := 3/5

/-- Per-signal weight: configured weight or the default 1.0. -/
def AggregatorConfig.weightOf (cfg : AggregatorConfig) (name : String) : ℚ :=
  dictGetD cfg.weights name 1

/-- Weighted score accumulated for one direction over the directional signals
(the loop bodies `yes_score += ...` / `no_score += ...`). -/
def directionScore (cfg : AggregatorConfig) (dir : SignalDirection)
    (directional : List Signal) : ℚ :=
  ((directional.filter (fun s => s.direction = dir)).map
    (fun s => s.composite_score * cfg.weightOf s.name)).sum

/-- Weight total accumulated for one direction (`yes_weight += ...`). -/
def directionWeight (cfg : AggregatorConfig) (dir : SignalDirection)
    (directional : List Signal) : ℚ :=
  ((directional.filter (fun s => s.direction = dir)).map
    (fun s => cfg.weightOf s.name)).sum

/-- Count of directional signals on one side (`yes_count += 1`). -/
def directionCount (dir : SignalDirection) (directional : List Signal) : ℕ :=
  (directional.filter (fun s => s.direction = dir)).length

/-- The `weights_used` dict collected by the loop. -/
def weightsUsed (cfg : AggregatorConfig) (directional : List Signal) :
    List (String × ℚ) :=
  directional.foldl (fun d s => dictInsert d s.name (cfg.weightOf s.name)) []

/-- Mean of the values of the correlations dict, 0 when it is empty
(lines 183-185 of `aggregator.py`). -/
def avgCorrelationOf (correlations : List ((String × String) × ℚ)) : ℚ :=
  if correlations = [] then 0
  else (correlations.map Prod.snd).sum / (correlations.length : ℚ)

/-- The non-NEUTRAL signals (`directional` in `aggregate`). -/
def directionalOf (signals : List Signal) : List Signal :=
  signals.filter (fun s => s.direction ≠ SignalDirection.NEUTRAL)

/-- `SignalAggregator.aggregate`. -/
def aggregate (cfg : AggregatorConfig) (signals : List Signal) :
    Option AggregatedSignal :=
  if signals.length < cfg.min_signals then none
  else
    let directional := directionalOf signals
    if directional = [] then none
    else if directional.length < cfg.min_signals then none
    else
      let market_id := (directional.headD default).market_id
      let yes_score := directionScore cfg SignalDirection.YES directional
      let no_score := directionScore cfg SignalDirection.NO directional
      let yes_weight := directionWeight cfg SignalDirection.YES directional
      let no_weight := directionWeight cfg SignalDirection.NO directional
      if no_score < yes_score then
        aggregateRest cfg directional market_id SignalDirection.YES
          (if 0 < yes_weight then yes_score / yes_weight else 0)
          (directionCount SignalDirection.YES directional)
      else if yes_score < no_score then
        aggregateRest cfg directional market_id SignalDirection.NO
          (if 0 < no_weight then no_score / no_weight else 0)
          (directionCount SignalDirection.NO directional)
      else none
where
  /-- The tail of `aggregate` after the winning direction is determined. -/
  aggregateRest (cfg : AggregatorConfig) (directional : List Signal)
      (market_id : String) (direction : SignalDirection)
      (aggregate_score : ℚ) (agreeing_count : ℕ) : Option AggregatedSignal :=
    let agreement_ratio : ℚ := (agreeing_count : ℚ) / (directional.length : ℚ)
    if cfg.require_agreement ∧ agreement_ratio < cfg.min_agreement_ratio then none
    else
      let avg_confidence := (directional.map Signal.confidence).sum / (directional.length : ℚ)
      let correlations := compute_pairwise_correlations directional
      let avg_correlation := avgCorrelationOf correlations
      let n : ℚ := (directional.length : ℚ)
      let independent_count := if 0 < directional.length then n / (1 + (n - 1) * avg_correlation) else 0
      let correlation_penalty := 1 - avg_correlation * (3/10)
      let confidence := agreement_ratio * avg_confidence * correlation_penalty
      some
        { market_id := market_id
          direction := direction
          aggregate_score := aggregate_score
          confidence := confidence
          contributing_signals := directional
          weights_used := weightsUsed cfg directional
          feature_correlations := correlations
          avg_correlation := avg_correlation
          independent_signal_count := independent_count }

/-! ## Recommendation ranking (`strategy/ranker.py`) -/

/-- Market metadata dictionary: the keys read by the ranker, each optional
(`market.get(key, default)` supplies the default when absent). -/
structure Market where
  event_id : Option String := none
  yes_ask : Option ℚ := none
  no_ask : Option ℚ := none
  spread : Option ℚ := none
  liquidity_score : Option ℚ := none
  time_to_kickoff : Option ℚ := none
  time_to_resolution : Option ℚ := none
  available_depth : Option ℚ := none
  league : Option String := none
  matchup : Option String := none
  title : Option String := none

/-- `market_data.get(market_id, {})`. -/
def marketFor (market_data : List (String × Market)) (market_id : String) : Market :=
  dictGetD market_data market_id {}

/-- `Recommendation` dataclass (display strings irrelevant to the claims are
kept as plain fields). -/
structure Recommendation where
  market_id : String
  event_id : String
  contract : SignalDirection
  entry_price : ℚ
  max_size : ℤ
  expected_value : ℚ
  time_to_resolution : Option ℚ
  contributing_signals : List String
  risk_flags : List String
  league : String
  matchup : String
  market_title : String
  rank_score : ℚ := 0
  confidence : ℚ := 0
  deriving DecidableEq, Repr

/-- `CandidateOpportunity` dataclass.  The rejection-reason strings carry
formatted numbers in the source; only their presence matters to the claims,
so the numeric formatting is elided from the string contents. -/
structure CandidateOpportunity where
  market_id : String
  event_id : String
  direction : SignalDirection
  entry_price : ℚ
  expected_value : ℚ
  confidence : ℚ
  signals : List String
  rejection_reasons : List String
  rank_score : ℚ
  league : String
  matchup : String
  market_title : String
  ev_threshold : ℚ
  confidence_threshold : ℚ
  deriving DecidableEq, Repr

/-- `CandidateOpportunity.is_recommended`. -/
def CandidateOpportunity.is_recommended (c : CandidateOpportunity) : Prop :=
  c.rejection_reasons.length = 0

instance (c : CandidateOpportunity) : Decidable c.is_recommended := by
  unfold CandidateOpportunity.is_recommended; infer_instance

/-- `RecommendationRanker` configuration. -/
structure RankerConfig where
  min_ev : ℚ := 1/50
  min_confidence : ℚ := 3/10
  max_recommendations : ℕ := 10
  ev_weight : ℚ := 2/5
  confidence_weight : ℚ := 3/10
  liquidity_weight : ℚ := 1/5
  timing_weight : ℚ := 1/10

/-- The estimated edge of `_calculate_expected_value`:
`signal_edge * agreement_scaling` with `max_edge = 0.10`. -/
def estimatedEdge (agg : AggregatedSignal) : ℚ :=
  let max_edge : ℚ := 1/10
  let signal_edge := agg.aggregate_score * max_edge
  let agreement_scaling := 1/2 + 1/2 * agg.agreement_ratio
  signal_edge * agreement_scaling

/-- The estimated win probability of `_calculate_expected_value`:
`min(0.95, entry_price + estimated_edge)` — capped above only. -/
def estimatedWinProb (agg : AggregatedSignal) (entry_price : ℚ) : ℚ :=
  min (19/20) (entry_price + estimatedEdge agg)

/-- `RecommendationRanker._calculate_expected_value`. -/
def calculateExpectedValue (agg : AggregatedSignal) (entry_price : ℚ) (m : Market) : ℚ :=
  let spread := m.spread.getD (1/50)
  let vig := spread / 2
  let estimated_win_prob := estimatedWinProb agg entry_price
  let win_profit := 1 - entry_price
  let loss_amount := entry_price
  let gross_ev := estimated_win_prob * win_profit - (1 - estimated_win_prob) * loss_amount
  gross_ev - vig

/-- Entry price resolution in `rank_all`: ask price for the winning side. -/
def entryPriceFor (agg : AggregatedSignal) (m : Market) : ℚ :=
  if agg.direction = SignalDirection.YES then m.yes_ask.getD (1/2)
  else m.no_ask.getD (1/2)

/-- `RecommendationRanker._calculate_rank_score`. -/
def calculateRankScore (cfg : RankerConfig) (expected_value confidence : ℚ) (m : Market) : ℚ :=
  let ev_score := min 1 (expected_value / (1/10))
  let conf_score := confidence
  let liquidity := m.liquidity_score.getD (1/2)
  let time_to_kickoff := m.time_to_kickoff.getD 86400
  let timing_score := max 0 (1 - time_to_kickoff / 7200)
  cfg.ev_weight * ev_score + cfg.confidence_weight * conf_score
    + cfg.liquidity_weight * liquidity + cfg.timing_weight * timing_score

/-- `RecommendationRanker._calculate_max_size`. -/
def calculateMaxSize (agg : AggregatedSignal) (m : Market) : ℤ :=
  let base_size := pyInt (100 * agg.confidence)
  let liquidity := m.liquidity_score.getD (1/2)
  let size := pyInt ((base_size : ℚ) * liquidity)
  let depth := m.available_depth.getD 1000
  let size := min size (pyInt (depth * (1/10)))
  max 10 size

/-- `RecommendationRanker._identify_risks`. -/
def identifyRisks (agg : AggregatedSignal) (m : Market) : List String :=
  (if m.liquidity_score.getD 1 < 3/10 then ["low_liquidity"] else [])
    ++ (if 1/20 < m.spread.getD 0 then ["wide_spread"] else [])
    ++ (if agg.signal_count = 1 then ["single_signal"] else [])
    ++ (if agg.agreement_ratio < 7/10 then ["signal_disagreement"] else [])
    ++ (if m.time_to_resolution.getD 86400 < 1800 then ["near_resolution"] else [])

/-- The `Recommendation` record built for one aggregated signal in
`rank_all` (rank_score is filled in afterwards, as in the source). -/
def buildRecommendation (agg : AggregatedSignal) (entry_price ev : ℚ) (m : Market) :
    Recommendation :=
  { market_id := agg.market_id
    event_id := m.event_id.getD ""
    contract := agg.direction
    entry_price := entry_price
    max_size := calculateMaxSize agg m
    expected_value := ev
    time_to_resolution := m.time_to_resolution
    contributing_signals := agg.contributing_signals.map Signal.name
    risk_flags := identifyRisks agg m
    league := m.league.getD ""
    matchup := m.matchup.getD ""
    market_title := m.title.getD ""
    confidence := agg.confidence }

/-- The rejection reasons tracked for one aggregated signal in `rank_all`
(string formatting of the numeric details elided). -/
def rejectionReasonsFor (cfg : RankerConfig) (ev confidence : ℚ) : List String :=
  (if ev < cfg.min_ev then ["EV below threshold"] else [])
    ++ (if confidence < cfg.min_confidence then ["Confidence below threshold"] else [])

/-- The `CandidateOpportunity` built for a rejected signal in `rank_all`. -/
def buildCandidate (cfg : RankerConfig) (agg : AggregatedSignal)
    (entry_price ev rank_score : ℚ) (reasons : List String) (m : Market) :
    CandidateOpportunity :=
  { market_id := agg.market_id
    event_id := m.event_id.getD ""
    direction := agg.direction
    entry_price := entry_price
    expected_value := ev
    confidence := agg.confidence
    signals := agg.contributing_signals.map Signal.name
    rejection_reasons := reasons
    rank_score := rank_score
    league := m.league.getD ""
    matchup := m.matchup.getD ""
    market_title := m.title.getD ""
    ev_threshold := cfg.min_ev
    confidence_threshold := cfg.min_confidence }

/-- One iteration of the `rank_all` loop: either a recommendation (with its
rank score set) or a watchlist candidate. -/
def rankAllStep (cfg : RankerConfig) (market_data : List (String × Market))
    (agg : AggregatedSignal) : Recommendation ⊕ CandidateOpportunity :=
  let m := marketFor market_data agg.market_id
  let entry_price := entryPriceFor agg m
  let ev := calculateExpectedValue agg entry_price m
  let reasons := rejectionReasonsFor cfg ev agg.confidence
  let rank_score := calculateRankScore cfg ev agg.confidence m
  if reasons = [] then
    Sum.inl { buildRecommendation agg entry_price ev m with rank_score := rank_score }
  else
    Sum.inr (buildCandidate cfg agg entry_price ev rank_score reasons m)

/-- The two lists accumulated by the `rank_all` loop, in input order. -/
def rankAllLoop (cfg : RankerConfig) (market_data : List (String × Market)) :
    List AggregatedSignal → List Recommendation × List CandidateOpportunity
  | [] => ([], [])
  | agg :: rest =>
    let (recs, wl) := rankAllLoop cfg market_data rest
    match rankAllStep cfg market_data agg with
    | Sum.inl r => (r :: recs, wl)
    | Sum.inr c => (recs, c :: wl)

/-- Descending comparison on `rank_score` used by the stable sorts
(`sort(key=lambda r: -r.rank_score)`). -/
def recDesc (a b : Recommendation) : Bool := b.rank_score ≤ a.rank_score

/-- Descending comparison on candidate `rank_score`. -/
def candDesc (a b : CandidateOpportunity) : Bool := b.rank_score ≤ a.rank_score

/-- `RecommendationRanker.rank_all`. -/
def rankAll (cfg : RankerConfig) (aggregated : List AggregatedSignal)
    (market_data : List (String × Market)) :
    List Recommendation × List CandidateOpportunity :=
  let (recs, wl) := rankAllLoop cfg market_data aggregated
  ((recs.mergeSort recDesc).take cfg.max_recommendations,
    wl.mergeSort candDesc)

/-- Whether an aggregated signal passes both ranking thresholds (its
`rank_all` rejection-reason list stays empty). -/
def rankPasses (cfg : RankerConfig) (market_data : List (String × Market))
    (agg : AggregatedSignal) : Bool :=
  let m := marketFor market_data agg.market_id
  let ev := calculateExpectedValue agg (entryPriceFor agg m) m
  decide (cfg.min_ev ≤ ev) && decide (cfg.min_confidence ≤ agg.confidence)

/-- The recommendation `rank_all` produces for a passing aggregated signal
(rank score filled in). -/
def buildRecFor (cfg : RankerConfig) (market_data : List (String × Market))
    (agg : AggregatedSignal) : Recommendation :=
  let m := marketFor market_data agg.market_id
  let e := entryPriceFor agg m
  let ev := calculateExpectedValue agg e m
  { buildRecommendation agg e ev m with
      rank_score := calculateRankScore cfg ev agg.confidence m }

/-- The watchlist candidate `rank_all` produces for a failing aggregated
signal. -/
def buildCandFor (cfg : RankerConfig) (market_data : List (String × Market))
    (agg : AggregatedSignal) : CandidateOpportunity :=
  let m := marketFor market_data agg.market_id
  let e := entryPriceFor agg m
  let ev := calculateExpectedValue agg e m
  buildCandidate cfg agg e ev (calculateRankScore cfg ev agg.confidence m)
    (rejectionReasonsFor cfg ev agg.confidence) m

/-! ## Position sizing (`strategy/sizing.py`) -/

/-- `SizingParams` dataclass, with its defaults. -/
structure SizingParams where
  base_size : ℚ := 100
  max_size : ℚ := 500
  min_size : ℚ := 10
  kelly_fraction : ℚ := 1/4
  confidence_scale : ℚ := 1

/-- `PositionSizer._kelly_size`. -/
def kellySize (params : SizingParams) (win_prob entry_price : ℚ)
    (bankroll : Option ℚ := none) : ℚ :=
  let bankroll := bankroll.getD (params.base_size * 10)
  if win_prob ≤ 0 ∨ 1 ≤ win_prob then 0
  else if entry_price ≤ 0 ∨ 1 ≤ entry_price then 0
  else
    let b := (1 - entry_price) / entry_price
    let p := win_prob
    let q := 1 - p
    let kelly_fraction := (b * p - q) / b
    if kelly_fraction ≤ 0 then 0
    else
      let adjusted_fraction := kelly_fraction * params.kelly_fraction
      let kelly_dollars := bankroll * adjusted_fraction
      max 0 kelly_dollars

/-- `PositionSizer._time_adjustment`. -/
def timeAdjustment (seconds : ℚ) : ℚ :=
  let hours := seconds / 3600
  if hours < 1/2 then 1/2
  else if hours < 1 then 7/10
  else if hours < 2 then 17/20
  else 1

/-- `PositionSizer.calculate`. -/
def sizerCalculate (params : SizingParams) (signal_confidence entry_price liquidity_score : ℚ)
    (time_to_resolution : Option ℚ := none) (available_depth : Option ℚ := none)
    (bankroll : Option ℚ := none) : ℤ :=
  let max_edge : ℚ := 1/10
  let estimated_win_prob := entry_price + signal_confidence * max_edge
  let estimated_win_prob := min (19/20) (max (1/20) estimated_win_prob)
  let size := kellySize params estimated_win_prob entry_price bankroll
  let size := if size ≤ 0 then params.min_size * signal_confidence else size
  let size := size * liquidity_score
  let size :=
    match time_to_resolution with
    | some t => size * timeAdjustment t
    | none => size
  let size :=
    match available_depth with
    | some d => min size (d * (1/10))
    | none => size
  let size := max params.min_size (min params.max_size size)
  pyInt size

/-! ## Portfolio exposure management (`strategy/portfolio.py`) -/

/-- `PortfolioPosition` (the direction string is modelled by the
`SignalDirection` enum whose values it ranges over). -/
structure PortfolioPosition where
  market_id : String
  event_id : String
  league : String
  direction : SignalDirection
  size : ℤ
  entry_price : ℚ
  deriving DecidableEq, Repr

/-- `PortfolioPosition.exposure = size * entry_price`. -/
def PortfolioPosition.exposure (p : PortfolioPosition) : ℚ :=
  (p.size : ℚ) * p.entry_price

/-- `PortfolioLimits` dataclass with its defaults. -/
structure PortfolioLimits where
  max_total_exposure : ℚ := 5000
  max_per_market : ℚ := 500
  max_per_event : ℚ := 1000
  max_per_league : ℚ := 2000
  max_correlated : ℚ := 1500

/-- `PortfolioManager.total_exposure`. -/
def totalExposure (positions : List PortfolioPosition) : ℚ :=
  (positions.map PortfolioPosition.exposure).sum

/-- Exposure of the positions in one market. -/
def marketExposure (positions : List PortfolioPosition) (market_id : String) : ℚ :=
  ((positions.filter (fun p => p.market_id = market_id)).map PortfolioPosition.exposure).sum

/-- Exposure of the positions in one event. -/
def eventExposure (positions : List PortfolioPosition) (event_id : String) : ℚ :=
  ((positions.filter (fun p => p.event_id = event_id)).map PortfolioPosition.exposure).sum

/-- Exposure of the positions in one league. -/
def leagueExposure (positions : List PortfolioPosition) (league : String) : ℚ :=
  ((positions.filter (fun p => p.league = league)).map PortfolioPosition.exposure).sum

/-- `PortfolioManager.check_limits`: `(is_allowed, violations)` (the
violation strings elide their formatted numbers). -/
def checkLimits (limits : PortfolioLimits) (positions : List PortfolioPosition)
    (rec : Recommendation) : Bool × List String :=
  let proposed_exposure := rec.entry_price * (rec.max_size : ℚ)
  let violations :=
    (if limits.max_total_exposure < totalExposure positions + proposed_exposure
      then ["total_exposure"] else [])
    ++ (if limits.max_per_market < marketExposure positions rec.market_id + proposed_exposure
      then ["market_exposure"] else [])
    ++ (if limits.max_per_event < eventExposure positions rec.event_id + proposed_exposure
      then ["event_exposure"] else [])
    ++ (if limits.max_per_league < leagueExposure positions rec.league + proposed_exposure
      then ["league_exposure"] else [])
  (violations.length = 0, violations)

/-- `PortfolioManager._size_to_fit`. -/
def sizeToFit (limits : PortfolioLimits) (positions : List PortfolioPosition)
    (rec : Recommendation) : ℤ :=
  let available_total := limits.max_total_exposure - totalExposure positions
  let available_event := limits.max_per_event - eventExposure positions rec.event_id
  let available_league := limits.max_per_league - leagueExposure positions rec.league
  let available := min (min (min available_total available_event) available_league)
    limits.max_per_market
  if available ≤ 0 ∨ rec.entry_price ≤ 0 then 0
  else pyInt (available / rec.entry_price)

/-- The per-event correlation step at the top of the
`adjust_for_correlation` loop body: halve the size and flag when an existing
position in the same event shares the direction, otherwise flag the hedge. -/
def correlationStep (positions : List PortfolioPosition) (rec : Recommendation) :
    Recommendation :=
  let event_positions := positions.filter (fun p => p.event_id = rec.event_id)
  if event_positions = [] then rec
  else if event_positions.any (fun p => p.direction = rec.contract) then
    { rec with max_size := pyInt ((rec.max_size : ℚ) * (1/2)),
               risk_flags := rec.risk_flags ++ ["correlated_position"] }
  else
    { rec with risk_flags := rec.risk_flags ++ ["opposite_position_exists"] }

/-- The whole `adjust_for_correlation` loop body for one recommendation:
`none` when the recommendation is dropped. -/
def adjustOne (limits : PortfolioLimits) (positions : List PortfolioPosition)
    (rec : Recommendation) : Option Recommendation :=
  let rec1 := correlationStep positions rec
  let allowed := (checkLimits limits positions rec1).1
  let violations := (checkLimits limits positions rec1).2
  let rec2 :=
    if allowed then rec1
    else { rec1 with risk_flags := rec1.risk_flags ++ violations,
                     max_size := sizeToFit limits positions rec1 }
  if 10 ≤ rec2.max_size then some rec2 else none

/-- `PortfolioManager.adjust_for_correlation`. -/
def adjustForCorrelation (limits : PortfolioLimits) (positions : List PortfolioPosition)
    (recommendations : List Recommendation) : List Recommendation :=
  recommendations.filterMap (adjustOne limits positions)

/-! ## Fill and slippage models (`backtest/fills.py`) -/

/-- `Fill` dataclass.  Requested and filled sizes are rationals because the
simulator passes `capital * max_position_pct`, a float, as the size. -/
structure Fill where
  requested_size : ℚ
  filled_size : ℚ
  avg_price : ℚ
  slippage : ℚ
  deriving DecidableEq, Repr

/-- `SlippageModel` dataclass with its defaults. -/
structure SlippageModel where
  base_slippage_bps : ℚ := 10
  size_impact_factor : ℚ := 1/10
  volatility_factor : ℚ := 1

/-- `SlippageModel.estimate_slippage`. -/
def estimateSlippage (m : SlippageModel) (size depth : ℚ)
    (volatility : ℚ := 1/100) (spread : ℚ := 1/50) : ℚ :=
  let slippage := m.base_slippage_bps / 10000
  let slippage := if 0 < depth then slippage + m.size_impact_factor * (size / depth) else slippage
  let slippage := slippage * (1 + volatility * m.volatility_factor)
  max slippage (spread / 2)

/-- `FillModel` constructor arguments with their defaults. -/
structure FillModel where
  slippage : SlippageModel := {}
  partial_fill_prob : ℚ := 1/10
  min_fill_pct : ℚ := 1/2

/-- `FillModel.simulate_fill`.  The two library random draws it may consume
(`random.random()` and the draw behind `random.uniform`) are passed
explicitly as `r1` and `r2`; `consumed` reports how many draws the call
actually used, so that a caller can advance the stream exactly as the
side-effecting source would. -/
def simulateFill (m : FillModel) (side : SignalDirection) (size price depth : ℚ)
    (volatility : ℚ := 1/100) (spread : ℚ := 1/50) (r1 r2 : ℚ) :
    Option Fill × ℕ :=
  if size ≤ 0 ∨ depth ≤ 0 then (none, 0)
  else
    let filled_size : ℚ :=
      if depth < size then depth
      else if r1 < m.partial_fill_prob then
        let fill_pct := m.min_fill_pct + (1 - m.min_fill_pct) * r2
        (pyInt (size * fill_pct) : ℚ)
      else size
    let consumed : ℕ :=
      if depth < size then 0
      else if r1 < m.partial_fill_prob then 2
      else 1
    if filled_size ≤ 0 then (none, consumed)
    else
      let slippage := estimateSlippage m.slippage filled_size depth volatility spread
      let avg_price := if side = SignalDirection.YES then price + slippage else price - slippage
      let avg_price := max (1/100) (min (99/100) avg_price)
      (some { requested_size := size
              filled_size := filled_size
              avg_price := avg_price
              slippage := slippage }, consumed)

/-! ## Backtest simulator (`backtest/simulator.py`) -/

/-- `BacktestConfig` dataclass (timestamps are modelled as integers ordered
like the datetimes of the source). -/
structure BacktestConfig where
  start_date : ℤ
  end_date : ℤ
  initial_capital : ℚ := 10000
  max_position_pct : ℚ := 1/20
  include_fees : Bool := true
  fee_per_contract : ℚ := 1/100

/-- Backtest `Position` dataclass. -/
structure BTPosition where
  market_id : String
  direction : SignalDirection
  size : ℚ
  entry_price : ℚ
  entry_time : ℤ
  exit_price : Option ℚ := none
  exit_time : Option ℤ := none
  deriving DecidableEq, Repr

/-- `Position.pnl`: `None` while open. -/
def BTPosition.pnl (p : BTPosition) : Option ℚ :=
  match p.exit_price with
  | none => none
  | some e =>
    if p.direction = SignalDirection.YES then some ((e - p.entry_price) * p.size)
    else some ((p.entry_price - e) * p.size)

/-- `BacktestState` dataclass. -/
structure BacktestState where
  capital : ℚ
  positions : List BTPosition := []
  closed_positions : List BTPosition := []
  fills : List Fill := []
  deriving Repr

/-- `BacktestState.equity`: currently just the cash capital. -/
def BacktestState.equity (s : BacktestState) : ℚ := s.capital

/-- A historical snapshot: the dictionary keys the simulator reads.
`timestamp` is required (the loop compares it against the date range);
`price` and `depth` default via `snapshot.get`; `settled_markets` is the
(possibly absent) dict of settled market outcomes. -/
structure BTSnapshot where
  timestamp : ℤ
  market_id : String := ""
  price : Option ℚ := none
  depth : Option ℚ := none
  settled_markets : List (String × SignalDirection) := []
  deriving Repr

/-- The signal object the simulator consumes: a direction and a `max_size`. -/
structure BTSignal where
  direction : SignalDirection
  max_size : ℚ
  deriving DecidableEq, Repr

/-- A signal generator as the simulator sees it: any exception raised during
generation is caught and logged, so a generator is a function that either
yields a signal or nothing. -/
def BTGenerator : Type := BTSnapshot → Option BTSignal

/-- `BacktestSimulator._generate_signals`. -/
def generateSignals (snapshot : BTSnapshot) (generators : List BTGenerator) :
    List BTSignal :=
  generators.filterMap (fun gen => gen snapshot)

/-- `BacktestSimulator._check_settlements`: settle every open position whose
market appears in the snapshot's `settled_markets`, crediting the payout. -/
def checkSettlements (snapshot : BTSnapshot) (state : BacktestState) : BacktestState :=
  { state with
    capital := state.capital +
      ((state.positions.filter
        (fun p => dictMem snapshot.settled_markets p.market_id)).map
        (fun p =>
          if dictGetD snapshot.settled_markets p.market_id SignalDirection.NEUTRAL
              = p.direction
          then p.size * 1 else 0)).sum
    positions := state.positions.filter
      (fun p => ¬ dictMem snapshot.settled_markets p.market_id)
    closed_positions := state.closed_positions ++
      ((state.positions.filter
        (fun p => dictMem snapshot.settled_markets p.market_id)).map
        (fun p =>
          { p with
            exit_price := some (if dictGetD snapshot.settled_markets p.market_id
                SignalDirection.NEUTRAL = p.direction then 1 else 0)
            exit_time := some snapshot.timestamp })) }

/-- `BacktestSimulator._execute_signal`: size the order, simulate the fill,
open the position and deduct the cost.  `rng` is the shared random stream
and `k` the index of its next unconsumed draw. -/
def executeSignal (cfg : BacktestConfig) (fill_model : FillModel)
    (signal : BTSignal) (snapshot : BTSnapshot) (state : BacktestState)
    (rng : ℕ → ℚ) (k : ℕ) : BacktestState × ℕ :=
  let max_size := state.capital * cfg.max_position_pct
  let size := min signal.max_size max_size
  if size < 10 then (state, k)
  else
    match simulateFill fill_model signal.direction size
      (snapshot.price.getD (1/2)) (snapshot.depth.getD 1000)
      (1/100) (1/50) (rng k) (rng (k + 1)) with
    | (none, consumed) => (state, k + consumed)
    | (some fill, consumed) =>
      let position : BTPosition :=
        { market_id := snapshot.market_id
          direction := signal.direction
          size := fill.filled_size
          entry_price := fill.avg_price
          entry_time := snapshot.timestamp }
      let cost := fill.filled_size * fill.avg_price
      let cost := if cfg.include_fees then cost + fill.filled_size * cfg.fee_per_contract else cost
      ({ state with
          capital := state.capital - cost
          positions := state.positions ++ [position]
          fills := state.fills ++ [fill] }, k + consumed)

/-- Execute all of one snapshot's signals in order. -/
def executeAll (cfg : BacktestConfig) (fill_model : FillModel)
    (signals : List BTSignal) (snapshot : BTSnapshot) (state : BacktestState)
    (rng : ℕ → ℚ) (k : ℕ) : BacktestState × ℕ :=
  signals.foldl (fun (sk : BacktestState × ℕ) sig =>
    executeSignal cfg fill_model sig snapshot sk.1 rng sk.2) (state, k)

/-- The body of `BacktestSimulator.run`: scan the stream in order, skipping
snapshots before `start_date` and stopping at the first one past `end_date`;
for each processed snapshot settle, generate, execute and record the equity.
Returns the final state and the equity curve.  Note that the source performs
no chronological-order check on the incoming timestamps. -/
def runLoop (cfg : BacktestConfig) (fill_model : FillModel)
    (generators : List BTGenerator) (rng : ℕ → ℚ) :
    List BTSnapshot → BacktestState → ℕ → BacktestState × List (ℤ × ℚ)
  | [], state, _ => (state, [])
  | snapshot :: rest, state, k =>
    if snapshot.timestamp < cfg.start_date then
      runLoop cfg fill_model generators rng rest state k
    else if cfg.end_date < snapshot.timestamp then (state, [])
    else
      let state1 := checkSettlements snapshot state
      let signals := generateSignals snapshot generators
      let res2 := executeAll cfg fill_model signals snapshot state1 rng k
      let res3 := runLoop cfg fill_model generators rng rest res2.1 res2.2
      (res3.1, (snapshot.timestamp, res2.1.equity) :: res3.2)

/-- `BacktestSimulator.run` (up to the final metrics computation): replay the
stream from a fresh state. -/
def simulatorRun (cfg : BacktestConfig) (fill_model : FillModel)
    (generators : List BTGenerator) (rng : ℕ → ℚ)
    (historical_data : List BTSnapshot) : BacktestState × List (ℤ × ℚ) :=
  runLoop cfg fill_model generators rng historical_data
    { capital := cfg.initial_capital } 0

/-! ## Spec-side comparison definitions

Definitions in this section follow the wording of the specification (not the
source), for comparison against the embedded source functions. -/

/-- Following the claim text: the expected value with the win probability
clamped to `[0.05, 0.95]` on both sides. -/
def claimedExpectedValue (agg : AggregatedSignal) (entry_price : ℚ) (m : Market) : ℚ :=
  let p := min (19/20) (max (1/20) (entry_price + estimatedEdge agg))
  p * (1 - entry_price) - (1 - p) * entry_price - m.spread.getD (1/50) / 2

/-- Following the claim text: the fitted size as the minimum over the four
levels of that level's remaining headroom (cap minus current exposure at
that level), divided by the entry price. -/
def claimedSizeToFit (limits : PortfolioLimits) (positions : List PortfolioPosition)
    (rec : Recommendation) : ℤ :=
  let available_total := limits.max_total_exposure - totalExposure positions
  let available_market := limits.max_per_market - marketExposure positions rec.market_id
  let available_event := limits.max_per_event - eventExposure positions rec.event_id
  let available_league := limits.max_per_league - leagueExposure positions rec.league
  let available := min (min (min available_total available_market) available_event)
    available_league
  if available ≤ 0 ∨ rec.entry_price ≤ 0 then 0
  else pyInt (available / rec.entry_price)

/-- Mean Jaccard feature overlap over all unordered pairs of the list
(0 when there are fewer than two signals), as the claim states it. -/
def pairwiseMeanOverlap (signals : List Signal) : ℚ :=
  if upperPairs signals = [] then 0
  else ((upperPairs signals).map (fun ab => compute_feature_overlap ab.1 ab.2)).sum
    / ((upperPairs signals).length : ℚ)

/-! ## Concrete inputs used by the counterexample and witness theorems -/

/-- A maximal-strength YES signal named `a`. -/
def sigYesA : Signal := Signal.make "a" SignalDirection.YES 1 1 "M" []

/-- A NEUTRAL signal named `b`. -/
def sigNeutB : Signal := Signal.make "b" SignalDirection.NEUTRAL 1 1 "M" []

/-- An aggregated signal with score 0 and no contributing signals
(agreement ratio 0). -/
def aggZero : AggregatedSignal :=
  { market_id := "M", direction := SignalDirection.YES, aggregate_score := 0,
    confidence := 0, contributing_signals := [], weights_used := [],
    feature_correlations := [], avg_correlation := 0, independent_signal_count := 0 }

/-- An aggregated signal with score 1/2 and full agreement. -/
def aggHalfScore : AggregatedSignal :=
  { aggZero with aggregate_score := 1/2, contributing_signals := [sigYesA] }

/-- An aggregated signal with score 1 and full agreement. -/
def aggFullScore : AggregatedSignal :=
  { aggZero with aggregate_score := 1, contributing_signals := [sigYesA] }

/-- An existing portfolio position: 400 exposure in market `M`, event `E`,
league `L`. -/
def posM400 : PortfolioPosition :=
  { market_id := "M", event_id := "E", league := "L",
    direction := SignalDirection.YES, size := 400, entry_price := 1 }

/-- A proposed recommendation of 200 more contracts in the same market
(opposite direction, so the correlation step only flags it). -/
def recM200 : Recommendation :=
  { market_id := "M", event_id := "E", contract := SignalDirection.NO,
    entry_price := 1, max_size := 200, expected_value := 1/20,
    time_to_resolution := none, contributing_signals := [], risk_flags := [],
    league := "L", matchup := "", market_title := "" }

/-- YES signal named `a` with feature set `{x}`. -/
def sigAx : Signal := Signal.make "a" SignalDirection.YES 1 1 "M" ["x"]

/-- YES signal named `b` with feature set `{x}`. -/
def sigBx : Signal := Signal.make "b" SignalDirection.YES 1 1 "M" ["x"]

/-- A second YES signal named `a`, with feature set `{y}` — its name
collides with `sigAx`. -/
def sigAy : Signal := Signal.make "a" SignalDirection.YES 1 1 "M" ["y"]

/-- The aggregation of `[sigAx, sigBx]` with the default configuration:
score 1, full agreement, one fully-overlapping pair. -/
def aggTwoIdentical : AggregatedSignal :=
  { market_id := "M", direction := SignalDirection.YES, aggregate_score := 1,
    confidence := 7/10, contributing_signals := [sigAx, sigBx],
    weights_used := [("a", 1), ("b", 1)],
    feature_correlations := [(("a", "b"), 1)], avg_correlation := 1,
    independent_signal_count := 1 }

/-- Backtest configuration for the look-ahead run: wide date range,
defaults otherwise. -/
def cfgLookahead : BacktestConfig := { start_date := 0, end_date := 100000 }

/-- Snapshot at `t+2h`. -/
def snapLate : BTSnapshot :=
  { timestamp := 7200, market_id := "T1", price := some (1/2), depth := some 100 }

/-- Snapshot at `t+1h` — strictly older than `snapLate`. -/
def snapEarly : BTSnapshot :=
  { timestamp := 3600, market_id := "T1", price := some (1/2), depth := some 100 }

/-- Backtest configuration sitting exactly on the claimed capital boundary:
`max_position_pct * (0.99 + fee_per_contract) = 1`. -/
def cfgBoundary : BacktestConfig :=
  { start_date := 0, end_date := 100, initial_capital := 100, max_position_pct := 1 }

/-- Snapshot priced at 0.99 with ample depth. -/
def snapRich : BTSnapshot :=
  { timestamp := 1, market_id := "M", price := some (99/100), depth := some 10000 }

/-- A generator that always wants a huge YES position. -/
def genGreedy : BTGenerator := fun _ => some { direction := SignalDirection.YES, max_size := 1000000 }

/-! ## Helper lemmas -/

/-- The agreement ratio of an aggregated signal is never negative. -/
theorem agreement_ratio_nonneg (a : AggregatedSignal) : 0 ≤ a.agreement_ratio := by
  unfold AggregatedSignal.agreement_ratio
  split
  · exact le_refl 0
  · positivity

/-- The expected value in closed form: win probability minus entry price
minus half the spread. -/
theorem calculateExpectedValue_eq (agg : AggregatedSignal) (e : ℚ) (m : Market) :
    calculateExpectedValue agg e m
      = estimatedWinProb agg e - e - m.spread.getD (1/50) / 2 := by
  unfold calculateExpectedValue
  ring

/-- `pyInt` of a value clamped into `[10, 500]` lies in `[10, 500]`. -/
theorem pyInt_clamp_bounds (x : ℚ) :
    10 ≤ pyInt (max 10 (min 500 x)) ∧ pyInt (max 10 (min 500 x)) ≤ 500 := by
  have h10 : (10 : ℚ) ≤ max 10 (min 500 x) := le_max_left _ _
  have h500 : max 10 (min 500 x) ≤ 500 := max_le (by norm_num) (min_le_left _ _)
  have h0 : (0 : ℚ) ≤ max 10 (min 500 x) := le_trans (by norm_num) h10
  unfold pyInt
  rw [if_pos h0]
  constructor
  · exact Int.le_floor.mpr (by exact_mod_cast h10)
  · calc ⌊max 10 (min 500 x)⌋ ≤ ⌊(500 : ℚ)⌋ := Int.floor_mono h500
    _ = 500 := by norm_num

/-- `pyInt` of a non-negative value is below the value. -/
theorem pyInt_le {x : ℚ} (h : 0 ≤ x) : (pyInt x : ℚ) ≤ x := by
  unfold pyInt
  rw [if_pos h]
  exact_mod_cast Int.floor_le x

/-- `pyInt` of a non-positive value is non-positive. -/
theorem pyInt_nonpos {x : ℚ} (h : x ≤ 0) : pyInt x ≤ 0 := by
  unfold pyInt
  split
  · rename_i h2
    have hx : x = 0 := le_antisymm h h2
    simp [hx]
  · exact Int.ceil_le.mpr (by exact_mod_cast h)

/-! ### Dictionary and pair-list lemmas (for claim C8) -/

/-- Inserting into a dict never yields the empty dict. -/
theorem dictInsert_ne_nil {K V : Type} [DecidableEq K] (d : List (K × V)) (k : K) (v : V) :
    dictInsert d k v ≠ [] := by
  cases d with
  | nil => simp [dictInsert]
  | cons kv rest =>
    obtain ⟨k0, v0⟩ := kv
    simp only [dictInsert]
    split <;> simp

/-- Inserting a fresh key appends the binding. -/
theorem dictInsert_of_not_mem {K V : Type} [DecidableEq K] {d : List (K × V)} {k : K}
    (v : V) (h : k ∉ d.map Prod.fst) : dictInsert d k v = d ++ [(k, v)] := by
  induction d with
  | nil => rfl
  | cons kv rest ih =>
    obtain ⟨k0, v0⟩ := kv
    simp only [List.map_cons, List.mem_cons, not_or] at h
    simp only [dictInsert, if_neg (fun he : k0 = k => h.1 he.symm), List.cons_append,
      List.cons.injEq, true_and]
    exact ih h.2

/-- Folding inserts of pairwise-distinct fresh keys just appends them. -/
theorem foldl_dictInsert_eq_append {K V : Type} [DecidableEq K] :
    ∀ (ps : List (K × V)) (d : List (K × V)),
      (ps.map Prod.fst).Nodup →
      (∀ k ∈ ps.map Prod.fst, k ∉ d.map Prod.fst) →
      ps.foldl (fun d2 kv => dictInsert d2 kv.1 kv.2) d = d ++ ps := by
  intro ps
  induction ps with
  | nil => intro d _ _; simp
  | cons kv ps ih =>
    intro d hnd hdisj
    obtain ⟨k0, v0⟩ := kv
    simp only [List.map_cons, List.nodup_cons] at hnd
    simp only [List.foldl_cons]
    rw [dictInsert_of_not_mem v0 (hdisj k0 (by simp))]
    rw [ih (d ++ [(k0, v0)]) hnd.2 ?_]
    · simp
    · intro k hk
      simp only [List.map_append, List.mem_append, List.map_cons, List.map_nil,
        List.mem_singleton, not_or]
      exact ⟨hdisj k (by simp [hk]), fun he => hnd.1 (he ▸ hk)⟩

/-- Every value of a dict built by inserts is an inserted value or an
original one. -/
theorem mem_snd_dictInsert {K V : Type} [DecidableEq K] {d : List (K × V)} {k : K} {v w : V}
    (h : w ∈ (dictInsert d k v).map Prod.snd) : w = v ∨ w ∈ d.map Prod.snd := by
  induction d with
  | nil => simpa [dictInsert] using h
  | cons kv rest ih =>
    obtain ⟨k0, v0⟩ := kv
    simp only [dictInsert] at h
    split at h
    · simp only [List.map_cons, List.mem_cons] at h
      rcases h with h | h
      · exact Or.inl h
      · exact Or.inr (by simp [h])
    · simp only [List.map_cons, List.mem_cons] at h
      rcases h with h | h
      · exact Or.inr (by simp [h])
      · rcases ih h with h2 | h2
        · exact Or.inl h2
        · exact Or.inr (by simp [h2])

/-- Values of a fold of inserts come from the start dict or the inserted
pairs. -/
theorem mem_snd_foldl_dictInsert {K V : Type} [DecidableEq K] :
    ∀ (ps : List (K × V)) (d : List (K × V)) (w : V),
      w ∈ ((ps.foldl (fun d2 kv => dictInsert d2 kv.1 kv.2) d).map Prod.snd) →
      w ∈ d.map Prod.snd ∨ w ∈ ps.map Prod.snd := by
  intro ps
  induction ps with
  | nil => intro d w h; exact Or.inl h
  | cons kv ps ih =>
    intro d w h
    simp only [List.foldl_cons] at h
    rcases ih _ w h with h2 | h2
    · rcases mem_snd_dictInsert h2 with h3 | h3
      · exact Or.inr (by simp [h3])
      · exact Or.inl h3
    · exact Or.inr (by simp [h2])

/-- A fold of inserts over a non-empty pair list is non-empty. -/
theorem foldl_dictInsert_ne_nil {K V : Type} [DecidableEq K] :
    ∀ (ps : List (K × V)) (d : List (K × V)), d ≠ [] ∨ ps ≠ [] →
      ps.foldl (fun d2 kv => dictInsert d2 kv.1 kv.2) d ≠ [] := by
  intro ps
  induction ps with
  | nil =>
    intro d h
    simpa using h.resolve_right (by simp)
  | cons kv ps ih =>
    intro d _
    simp only [List.foldl_cons]
    exact ih _ (Or.inl (dictInsert_ne_nil _ _ _))

/-- Both components of an `upperPairs` element belong to the list. -/
theorem upperPairs_mem : ∀ {l : List Signal} {ab : Signal × Signal},
    ab ∈ upperPairs l → ab.1 ∈ l ∧ ab.2 ∈ l := by
  intro l
  induction l with
  | nil => intro ab h; simp [upperPairs] at h
  | cons a rest ih =>
    intro ab h
    simp only [upperPairs, List.mem_append, List.mem_map] at h
    rcases h with ⟨b, hb, rfl⟩ | h
    · exact ⟨by simp, by simp [hb]⟩
    · exact ⟨List.mem_cons_of_mem a (ih h).1, List.mem_cons_of_mem a (ih h).2⟩

/-- A pairwise relation on the list holds on every `upperPairs` element. -/
theorem upperPairs_pairwise {R : Signal → Signal → Prop} : ∀ {l : List Signal},
    l.Pairwise R → ∀ ab ∈ upperPairs l, R ab.1 ab.2 := by
  intro l
  induction l with
  | nil => intro _ ab h; simp [upperPairs] at h
  | cons a rest ih =>
    intro hp ab h
    rw [List.pairwise_cons] at hp
    simp only [upperPairs, List.mem_append, List.mem_map] at h
    rcases h with ⟨b, hb, rfl⟩ | h
    · exact hp.1 b hb
    · exact ih hp.2 ab h

/-- A list of at least two elements has at least one upper pair. -/
theorem upperPairs_ne_nil : ∀ {l : List Signal}, 2 ≤ l.length → upperPairs l ≠ [] := by
  intro l h
  match l, h with
  | a :: b :: t, _ => simp [upperPairs]

/-- `tuple(sorted([x, y]))` is one of the two orderings. -/
theorem sortedKey_cases (x y : String) :
    sortedKey x y = (x, y) ∨ sortedKey x y = (y, x) := by
  unfold sortedKey
  split
  · exact Or.inl rfl
  · exact Or.inr rfl

/-- With pairwise-distinct signal names, the sorted name-pair keys of the
upper pairs are pairwise distinct. -/
theorem pairKeys_nodup : ∀ {l : List Signal}, (l.map Signal.name).Nodup →
    ((upperPairs l).map (fun ab => sortedKey ab.1.name ab.2.name)).Nodup := by
  intro l
  induction l with
  | nil => intro _; simp [upperPairs]
  | cons a rest ih =>
    intro h
    simp only [List.map_cons, List.nodup_cons] at h
    obtain ⟨hanotin, hrest⟩ := h
    simp only [upperPairs, List.map_append, List.map_map]
    have hname_ne : ∀ b ∈ rest, b.name ≠ a.name := by
      intro b hb he
      exact hanotin (he ▸ List.mem_map_of_mem Signal.name hb)
    apply List.Nodup.append
    · apply List.Nodup.map_on ?_ (List.Nodup.of_map _ hrest)
      intro b hb b2 hb2 heq
      simp only [Function.comp] at heq
      have hbn : b.name ≠ a.name := hname_ne b hb
      have hb2n : b2.name ≠ a.name := hname_ne b2 hb2
      have hnames : b.name = b2.name := by
        rcases sortedKey_cases a.name b.name with h1 | h1 <;>
          rcases sortedKey_cases a.name b2.name with h2 | h2 <;>
          rw [h1, h2] at heq <;>
          simp only [Prod.mk.injEq] at heq
        · exact heq.2
        · exact absurd heq.1.symm hb2n
        · exact absurd heq.1 hbn
        · exact heq.1
      exact List.inj_on_of_nodup_map hrest hb hb2 hnames
    · exact ih hrest
    · intro k hk1 hk2
      simp only [List.mem_map, Function.comp] at hk1 hk2
      rcases hk1 with ⟨b, hb, hkey1⟩
      rcases hk2 with ⟨ab, hab, hkey2⟩
      have hmem := upperPairs_mem hab
      have huname : ab.1.name ≠ a.name := hname_ne ab.1 hmem.1
      have hvname : ab.2.name ≠ a.name := hname_ne ab.2 hmem.2
      have heq : sortedKey a.name b.name = sortedKey ab.1.name ab.2.name := by
        rw [hkey1, hkey2]
      rcases sortedKey_cases a.name b.name with h1 | h1 <;>
        rcases sortedKey_cases ab.1.name ab.2.name with h2 | h2 <;>
        rw [h1, h2] at heq <;>
        simp only [Prod.mk.injEq] at heq
      · exact huname heq.1.symm
      · exact hvname heq.1.symm
      · exact hvname heq.2.symm
      · exact huname heq.2.symm

/-- The correlations dict as a fold of generic key-value inserts. -/
theorem compute_pairwise_correlations_as_fold (l : List Signal) :
    compute_pairwise_correlations l
      = ((upperPairs l).map
          (fun ab => (sortedKey ab.1.name ab.2.name, compute_feature_overlap ab.1 ab.2))).foldl
          (fun d kv => dictInsert d kv.1 kv.2) [] := by
  unfold compute_pairwise_correlations
  rw [List.foldl_map]

/-- With pairwise-distinct signal names the correlations dict is exactly the
pair list, one entry per unordered pair. -/
theorem compute_pairwise_correlations_eq {l : List Signal}
    (h : (l.map Signal.name).Nodup) :
    compute_pairwise_correlations l
      = (upperPairs l).map
          (fun ab => (sortedKey ab.1.name ab.2.name, compute_feature_overlap ab.1 ab.2)) := by
  rw [compute_pairwise_correlations_as_fold, foldl_dictInsert_eq_append _ _ ?_ (by simp)]
  · simp
  · rw [List.map_map]
    exact pairKeys_nodup h

/-- With pairwise-distinct signal names, the dict's mean value is the mean
Jaccard overlap over all unordered pairs. -/
theorem avgCorrelation_eq_mean {l : List Signal} (h : (l.map Signal.name).Nodup) :
    avgCorrelationOf (compute_pairwise_correlations l) = pairwiseMeanOverlap l := by
  rw [compute_pairwise_correlations_eq h]
  unfold avgCorrelationOf pairwiseMeanOverlap
  rcases eq_or_ne (upperPairs l) [] with he | he
  · simp [he]
  · rw [if_neg (by simpa using he), if_neg he, List.map_map, List.length_map]
    rfl

/-- If every inserted overlap equals `c`, the dict's mean value is `c`
(whenever there is at least one pair). -/
theorem avgCorrelation_const {l : List Signal} {c : ℚ}
    (hne : upperPairs l ≠ [])
    (hc : ∀ ab ∈ upperPairs l, compute_feature_overlap ab.1 ab.2 = c) :
    avgCorrelationOf (compute_pairwise_correlations l) = c := by
  rw [compute_pairwise_correlations_as_fold]
  have hps_ne : (upperPairs l).map
      (fun ab => (sortedKey ab.1.name ab.2.name, compute_feature_overlap ab.1 ab.2)) ≠ [] := by
    simpa using hne
  have hdict_ne := foldl_dictInsert_ne_nil _ ([] : List ((String × String) × ℚ))
    (Or.inr hps_ne)
  have hvals : ∀ v ∈ (((upperPairs l).map
      (fun ab => (sortedKey ab.1.name ab.2.name, compute_feature_overlap ab.1 ab.2))).foldl
        (fun d kv => dictInsert d kv.1 kv.2) []).map Prod.snd, v = c := by
    intro v hv
    rcases mem_snd_foldl_dictInsert _ _ v hv with h2 | h2
    · simp at h2
    · simp only [List.map_map, List.mem_map, Function.comp] at h2
      rcases h2 with ⟨ab, hab, h3⟩
      rw [← h3]
      exact hc ab hab
  unfold avgCorrelationOf
  rw [if_neg hdict_ne]
  have hlen_ne : ((((upperPairs l).map
      (fun ab => (sortedKey ab.1.name ab.2.name, compute_feature_overlap ab.1 ab.2))).foldl
        (fun d kv => dictInsert d kv.1 kv.2) []).length : ℚ) ≠ 0 := by
    rw [Nat.cast_ne_zero]
    intro hlen
    exact hdict_ne (List.length_eq_zero.mp hlen)
  have hrep := List.eq_replicate_of_mem hvals
  rw [hrep, List.sum_replicate, List.length_map, nsmul_eq_mul, mul_comm, mul_div_assoc,
    div_self hlen_ne, mul_one]

/-! ## Claim C1 — look-ahead-bias protection in `BacktestSimulator.run` -/

/-- C1: the claim says a snapshot strictly older than the previously
processed one raises a fatal look-ahead-bias error and aborts the run.  The
source performs no such check: fed the out-of-order stream `t+2h, t+1h`,
`run` processes both snapshots (both appear, out of order, on the equity
curve) and returns normally.  The repository's own test suite
(`tests/test_backtest.py`) expects `ValueError("Look-ahead bias")` here, so
the code contradicts its tests. -/
theorem run_processes_out_of_order_snapshots :
    (simulatorRun cfgLookahead {} [] (fun _ => 0) [snapLate, snapEarly]).2
      = [(7200, 10000), (3600, 10000)]
    ∧ snapEarly.timestamp < snapLate.timestamp := by
  constructor
  · simp only [simulatorRun, runLoop, cfgLookahead, snapLate, snapEarly,
      checkSettlements, generateSignals, executeAll, BacktestState.equity,
      dictMem, dictGetD, List.filterMap, List.foldl, List.filter, List.map,
      List.sum_nil, List.append_nil]
    norm_num
  · decide

/-! ## Claim C2 — when `SignalAggregator.aggregate` returns `None` -/

/-- The tail of `aggregate` rejects exactly when agreement is required and
the winning side's agreement ratio is below the configured minimum. -/
theorem aggregateRest_none_iff (cfg : AggregatorConfig) (directional : List Signal)
    (market_id : String) (dir : SignalDirection) (score : ℚ) (cnt : ℕ) :
    aggregate.aggregateRest cfg directional market_id dir score cnt = none ↔
      (cfg.require_agreement
        ∧ (cnt : ℚ) / (directional.length : ℚ) < cfg.min_agreement_ratio) := by
  simp only [aggregate.aggregateRest]
  by_cases h : (cfg.require_agreement = true
      ∧ (cnt : ℚ) / (directional.length : ℚ) < cfg.min_agreement_ratio)
  · simp [h]
  · simp [h]

/-- C2, counterexample: with the default configuration (`min_signals = 2`,
`require_agreement`, `min_agreement_ratio = 0.6`), the list `[YES, NEUTRAL]`
is rejected by `aggregate`, although none of the claim's four rejection
conditions holds: the list has 2 ≥ `min_signals` signals, not all are
NEUTRAL, YES strictly exceeds NO in weighted score, and all directional
signals agree with the winning direction.  The code rejects because it also
requires `min_signals` *directional* signals, which the claim denies. -/
theorem aggregate_rejects_neutral_padded_list :
    aggregate {} [sigYesA, sigNeutB] = none
    ∧ ¬ ([sigYesA, sigNeutB].length < ({} : AggregatorConfig).min_signals)
    ∧ ¬ (∀ s ∈ [sigYesA, sigNeutB], s.direction = SignalDirection.NEUTRAL)
    ∧ directionScore {} SignalDirection.NO [sigYesA, sigNeutB]
        < directionScore {} SignalDirection.YES [sigYesA, sigNeutB]
    ∧ ¬ ((directionCount SignalDirection.YES (directionalOf [sigYesA, sigNeutB]) : ℚ)
          / ((directionalOf [sigYesA, sigNeutB]).length : ℚ)
        < ({} : AggregatorConfig).min_agreement_ratio) := by
  refine ⟨?_, by decide, ?_, ?_, ?_⟩
  · simp [aggregate, directionalOf, sigYesA, sigNeutB, Signal.make]
  · intro h
    have := h sigYesA (by simp)
    simp [sigYesA, Signal.make] at this
  · simp only [directionScore, AggregatorConfig.weightOf, dictGetD, sigYesA, sigNeutB,
      Signal.make, Signal.composite_score, List.filter, List.map, List.find?]
    norm_num
  · simp +decide only [directionCount, directionalOf, sigYesA, sigNeutB, Signal.make,
      List.filter_cons, List.filter_nil, List.length_cons, List.length_nil]
    norm_num

/-- C2, amended: `aggregate` returns `None` exactly when: the list has fewer
than `min_signals` signals; or there are no directional (non-NEUTRAL)
signals; or there are fewer than `min_signals` *directional* signals (the
condition the original claim omits); or the two directions' weighted scores
tie; or agreement is required and the winning direction's share of the
directional signals is below `min_agreement_ratio`. -/
theorem aggregate_none_iff (cfg : AggregatorConfig) (signals : List Signal) :
    aggregate cfg signals = none ↔
      signals.length < cfg.min_signals
      ∨ directionalOf signals = []
      ∨ (directionalOf signals).length < cfg.min_signals
      ∨ directionScore cfg SignalDirection.YES (directionalOf signals)
          = directionScore cfg SignalDirection.NO (directionalOf signals)
      ∨ (cfg.require_agreement ∧
          ((directionScore cfg SignalDirection.NO (directionalOf signals)
              < directionScore cfg SignalDirection.YES (directionalOf signals)
            ∧ (directionCount SignalDirection.YES (directionalOf signals) : ℚ)
                / ((directionalOf signals).length : ℚ) < cfg.min_agreement_ratio)
          ∨ (directionScore cfg SignalDirection.YES (directionalOf signals)
              < directionScore cfg SignalDirection.NO (directionalOf signals)
            ∧ (directionCount SignalDirection.NO (directionalOf signals) : ℚ)
                / ((directionalOf signals).length : ℚ) < cfg.min_agreement_ratio))) := by
  simp only [aggregate]
  by_cases h1 : signals.length < cfg.min_signals
  · simp [h1]
  by_cases h2 : directionalOf signals = []
  · simp [h1, h2]
  by_cases h3 : (directionalOf signals).length < cfg.min_signals
  · simp [h1, h2, h3]
  rw [if_neg h1, if_neg h2, if_neg h3]
  by_cases h4 : directionScore cfg SignalDirection.NO (directionalOf signals)
      < directionScore cfg SignalDirection.YES (directionalOf signals)
  · rw [if_pos h4, aggregateRest_none_iff]
    have hne : directionScore cfg SignalDirection.YES (directionalOf signals)
        ≠ directionScore cfg SignalDirection.NO (directionalOf signals) :=
      ne_of_gt h4
    constructor
    · rintro ⟨hreq, hlt⟩
      exact Or.inr (Or.inr (Or.inr (Or.inr ⟨hreq, Or.inl ⟨h4, hlt⟩⟩)))
    · rintro (h | h | h | h | ⟨hreq, (⟨_, hlt⟩ | ⟨hbad, _⟩)⟩)
      · exact absurd h h1
      · exact absurd h h2
      · exact absurd h h3
      · exact absurd h hne
      · exact ⟨hreq, hlt⟩
      · exact absurd hbad (not_lt_of_gt h4)
  rw [if_neg h4]
  by_cases h5 : directionScore cfg SignalDirection.YES (directionalOf signals)
      < directionScore cfg SignalDirection.NO (directionalOf signals)
  · rw [if_pos h5, aggregateRest_none_iff]
    have hne : directionScore cfg SignalDirection.YES (directionalOf signals)
        ≠ directionScore cfg SignalDirection.NO (directionalOf signals) :=
      (ne_of_lt h5)
    constructor
    · rintro ⟨hreq, hlt⟩
      exact Or.inr (Or.inr (Or.inr (Or.inr ⟨hreq, Or.inr ⟨h5, hlt⟩⟩)))
    · rintro (h | h | h | h | ⟨hreq, (⟨hbad, _⟩ | ⟨_, hlt⟩)⟩)
      · exact absurd h h1
      · exact absurd h h2
      · exact absurd h h3
      · exact absurd h hne
      · exact absurd hbad h4
      · exact ⟨hreq, hlt⟩
  · rw [if_neg h5]
    have heq : directionScore cfg SignalDirection.YES (directionalOf signals)
        = directionScore cfg SignalDirection.NO (directionalOf signals) :=
      le_antisymm (not_lt.mp h4) (not_lt.mp h5)
    simp [heq]

/-! ## Claim C3 — expected-value formula and the 0.05 lower clamp -/

/-- C3, counterexample: at entry price 0.01 with a zero-score signal the
computed win probability is 0.01, below the claimed lower clamp of 0.05,
and the expected value differs from the claimed double-clamped formula. -/
theorem ev_lower_clamp_counterexample :
    estimatedWinProb aggZero (1/100) < 1/20
    ∧ calculateExpectedValue aggZero (1/100) {}
        ≠ claimedExpectedValue aggZero (1/100) {} := by
  constructor
  · norm_num [estimatedWinProb, estimatedEdge, aggZero, AggregatedSignal.agreement_ratio]
  · norm_num [calculateExpectedValue, claimedExpectedValue, estimatedWinProb,
      estimatedEdge, aggZero, AggregatedSignal.agreement_ratio, Market.spread]

/-- C3, amended: the ranker's expected value equals `gross_ev − s/2` with
`gross_ev = p·(1−e) − (1−p)·e` and
`p = min(e + aggregate_score·0.10·(0.5 + 0.5·agreement_ratio), 0.95)`:
the win probability is capped above at 0.95 but has no lower clamp at
0.05. -/
theorem ev_formula (agg : AggregatedSignal) (e : ℚ) (m : Market) :
    calculateExpectedValue agg e m
      = estimatedWinProb agg e * (1 - e) - (1 - estimatedWinProb agg e) * e
        - m.spread.getD (1/50) / 2
    ∧ estimatedWinProb agg e
      = min (19/20) (e + agg.aggregate_score * (1/10) * (1/2 + 1/2 * agg.agreement_ratio))
    ∧ estimatedWinProb agg e ≤ 19/20 := by
  refine ⟨rfl, rfl, min_le_left _ _⟩

/-! ## Claim C4 — monotonicity of the expected-value estimator -/

/-- C4, counterexample: at entry price 0.9 and full agreement, scores 1/2
and 1 both saturate the 0.95 probability cap and give equal expected value,
so a strictly larger score does not always yield a strictly larger EV. -/
theorem ev_monotonicity_counterexample :
    aggHalfScore.aggregate_score < aggFullScore.aggregate_score
    ∧ aggHalfScore.agreement_ratio = aggFullScore.agreement_ratio
    ∧ calculateExpectedValue aggHalfScore (9/10) {}
        = calculateExpectedValue aggFullScore (9/10) {} := by
  refine ⟨by norm_num [aggHalfScore, aggFullScore, aggZero], rfl, ?_⟩
  norm_num [calculateExpectedValue, estimatedWinProb, estimatedEdge,
    aggHalfScore, aggFullScore, aggZero, AggregatedSignal.agreement_ratio,
    sigYesA, Signal.make, Market.spread]

/-- C4, amended: at fixed agreement ratio and entry price the EV is
monotone non-decreasing in `aggregate_score`, and strictly increasing as
long as the smaller score's uncapped win probability stays below the 0.95
cap; at fixed signal the EV strictly decreases in the spread
(unconditionally). -/
theorem ev_monotonicity (agg1 agg2 : AggregatedSignal) (e : ℚ) (m : Market)
    (har : agg1.agreement_ratio = agg2.agreement_ratio)
    (hs : agg1.aggregate_score < agg2.aggregate_score) :
    calculateExpectedValue agg1 e m ≤ calculateExpectedValue agg2 e m
    ∧ (e + estimatedEdge agg1 < 19/20 →
        calculateExpectedValue agg1 e m < calculateExpectedValue agg2 e m)
    ∧ ∀ s1 s2 : ℚ, s1 < s2 →
        calculateExpectedValue agg1 e { m with spread := some s2 }
          < calculateExpectedValue agg1 e { m with spread := some s1 } := by
  have hcoef : (0 : ℚ) < 1/10 * (1/2 + 1/2 * agg1.agreement_ratio) := by
    have := agreement_ratio_nonneg agg1
    nlinarith
  have hedge : estimatedEdge agg1 < estimatedEdge agg2 := by
    unfold estimatedEdge
    rw [← har]
    calc agg1.aggregate_score * (1/10) * (1/2 + 1/2 * agg1.agreement_ratio)
        = agg1.aggregate_score * (1/10 * (1/2 + 1/2 * agg1.agreement_ratio)) := by ring
    _ < agg2.aggregate_score * (1/10 * (1/2 + 1/2 * agg1.agreement_ratio)) :=
        mul_lt_mul_of_pos_right hs hcoef
    _ = agg2.aggregate_score * (1/10) * (1/2 + 1/2 * agg1.agreement_ratio) := by ring
  refine ⟨?_, ?_, ?_⟩
  · rw [calculateExpectedValue_eq, calculateExpectedValue_eq]
    have : estimatedWinProb agg1 e ≤ estimatedWinProb agg2 e :=
      min_le_min le_rfl (by linarith)
    linarith
  · intro hcap
    rw [calculateExpectedValue_eq, calculateExpectedValue_eq]
    have h1 : estimatedWinProb agg1 e = e + estimatedEdge agg1 :=
      min_eq_right (le_of_lt hcap)
    have h2 : estimatedWinProb agg1 e < estimatedWinProb agg2 e := by
      rw [h1]
      exact lt_min hcap (by linarith)
    linarith
  · intro s1 s2 h12
    rw [calculateExpectedValue_eq, calculateExpectedValue_eq]
    simp only [Option.getD_some]
    linarith

/-- C4, witness for the amended theorem: at entry 1/2 and spread pair
(1/50, 1/25) with the concrete signals of score 1/2 and 1. -/
theorem ev_monotonicity_witness :
    calculateExpectedValue aggHalfScore (1/2) {}
      ≤ calculateExpectedValue aggFullScore (1/2) {}
    ∧ calculateExpectedValue aggHalfScore (1/2) {}
        < calculateExpectedValue aggFullScore (1/2) {} := by
  have h := ev_monotonicity aggHalfScore aggFullScore (1/2) {} rfl
    (by norm_num [aggHalfScore, aggFullScore, aggZero])
  refine ⟨h.1, h.2.1 ?_⟩
  norm_num [estimatedEdge, aggHalfScore, aggZero, AggregatedSignal.agreement_ratio,
    sigYesA, Signal.make]

/-! ## Claim C5 — Kelly sizing zero-edge and fractional scaling -/

/-- C5: `_kelly_size` returns 0 at zero edge (`win_prob = entry_price`) and
at negative edge (`win_prob < entry_price`), and raising `kelly_fraction`
from 0.25 to 1.0 scales its output by exactly 4. -/
theorem kellySize_eq (params : SizingParams) (wp e : ℚ) (b : Option ℚ) :
    kellySize params wp e b =
      if wp ≤ 0 ∨ 1 ≤ wp then 0
      else if e ≤ 0 ∨ 1 ≤ e then 0
      else if ((1 - e) / e * wp - (1 - wp)) / ((1 - e) / e) ≤ 0 then 0
      else max 0 (b.getD (params.base_size * 10)
        * (((1 - e) / e * wp - (1 - wp)) / ((1 - e) / e) * params.kelly_fraction)) :=
  rfl

/-- C5: `_kelly_size` returns 0 at zero edge (`win_prob = entry_price`) and
at negative edge (`win_prob < entry_price`), and raising `kelly_fraction`
from 0.25 to 1.0 scales its output by exactly 4. -/
theorem kelly_size_edge_and_scaling (params : SizingParams) (wp e : ℚ) (b : Option ℚ) :
    (wp = e → kellySize params wp e b = 0)
    ∧ (wp < e → kellySize params wp e b = 0)
    ∧ kellySize { params with kelly_fraction := 1 } wp e b
        = 4 * kellySize { params with kelly_fraction := 1/4 } wp e b := by
  refine ⟨?_, ?_, ?_⟩
  · intro hpe
    subst hpe
    rw [kellySize_eq]
    split_ifs with h1 h2
    · rfl
    · rfl
    · exfalso
      apply h2
      push_neg at h1
      have he0 : (0 : ℚ) < wp := h1.1
      have hnum : (1 - wp) / wp * wp - (1 - wp) = 0 := by
        field_simp
      rw [hnum, zero_div]
  · intro hpe
    rw [kellySize_eq]
    split_ifs with h1 h2 h3
    · rfl
    · rfl
    · rfl
    · exfalso
      apply h3
      push_neg at h1
      push_neg at h2
      have hw0 : (0 : ℚ) < wp := h1.1
      have he0 : (0 : ℚ) < e := h2.1
      have he1 : e < 1 := h2.2
      have hb : (0 : ℚ) < (1 - e) / e := div_pos (by linarith) he0
      have hnum : (1 - e) / e * wp - (1 - wp) < 0 := by
        rw [div_mul_eq_mul_div, sub_neg, div_lt_iff₀ he0]
        nlinarith
      exact le_of_lt (div_neg_of_neg_of_pos hnum hb)
  · rw [kellySize_eq, kellySize_eq]
    split_ifs with h1 h2 h3
    · simp
    · simp
    · simp
    · have key : ∀ B k : ℚ, max 0 (B * (k * 1)) = 4 * max 0 (B * (k * (1/4))) := by
        intro B k
        have h4 : B * (k * 1) = 4 * (B * (k * (1/4))) := by ring
        rcases le_total (B * (k * (1/4))) 0 with hle | hge
        · rw [max_eq_left hle, max_eq_left (by linarith : B * (k * 1) ≤ 0), mul_zero]
        · rw [max_eq_right hge, max_eq_right (by linarith : (0:ℚ) ≤ B * (k * 1)), h4]
      exact key _ _

/-- C5, witness: zero edge at `win_prob = entry_price = 1/2` and negative
edge at `win_prob = 2/5 < entry_price = 1/2` both size to 0. -/
theorem kelly_size_edge_and_scaling_witness :
    kellySize {} (1/2) (1/2) (some 1000) = 0
    ∧ kellySize {} (2/5) (1/2) (some 1000) = 0 :=
  ⟨(kelly_size_edge_and_scaling {} (1/2) (1/2) (some 1000)).1 rfl,
   (kelly_size_edge_and_scaling {} (2/5) (1/2) (some 1000)).2.1 (by norm_num)⟩

/-! ## Claim C6 — refitting an over-limit recommendation -/

/-- C6, counterexample: an existing position of exposure 400 in market `M`
(cap 500) and a proposed 200 more violate the per-market limit, so the
recommendation is refitted.  The claimed fit — the minimum over the four
levels' remaining headrooms divided by the entry price — is 100 contracts,
but `_size_to_fit` uses the *full* per-market cap instead of the market
headroom and returns 500, which still violates the per-market limit; the
adjusted list carries the recommendation at 500 contracts. -/
theorem size_to_fit_market_headroom_counterexample :
    (checkLimits {} [posM400] (correlationStep [posM400] recM200)).1 = false
    ∧ sizeToFit {} [posM400] (correlationStep [posM400] recM200) = 500
    ∧ claimedSizeToFit {} [posM400] (correlationStep [posM400] recM200) = 100
    ∧ (adjustForCorrelation {} [posM400] [recM200]).map Recommendation.max_size
        = [500] := by
  refine ⟨?_, ?_, ?_, ?_⟩
  · norm_num +decide [checkLimits, correlationStep, posM400, recM200, totalExposure,
      marketExposure, eventExposure, leagueExposure, PortfolioPosition.exposure,
      List.filter_cons]
  · norm_num +decide [sizeToFit, correlationStep, posM400, recM200, totalExposure,
      marketExposure, eventExposure, leagueExposure, PortfolioPosition.exposure,
      List.filter_cons, pyInt, min_def]
  · norm_num +decide [claimedSizeToFit, correlationStep, posM400, recM200, totalExposure,
      marketExposure, eventExposure, leagueExposure, PortfolioPosition.exposure,
      List.filter_cons, pyInt, min_def]
  · norm_num +decide [adjustForCorrelation, adjustOne, checkLimits, sizeToFit,
      correlationStep, posM400, recM200, totalExposure, marketExposure, eventExposure,
      leagueExposure, PortfolioPosition.exposure, List.filter_cons, List.filterMap,
      pyInt, min_def]

/-- C6, amended: for a recommendation that violates an exposure limit (after
the per-event correlation step), its size is recomputed by `_size_to_fit` as
the minimum of the total, event and league *headrooms* and the full
per-market *cap* (not the market headroom), divided by the entry price and
truncated; the recommendation is dropped from the adjusted list exactly when
this fitted size is below 10 contracts. -/
theorem size_to_fit_and_drop (limits : PortfolioLimits) (positions : List PortfolioPosition)
    (rec : Recommendation)
    (hviol : (checkLimits limits positions (correlationStep positions rec)).1 = false) :
    (∀ r ∈ adjustForCorrelation limits positions [rec],
        r.max_size = sizeToFit limits positions (correlationStep positions rec))
    ∧ (adjustForCorrelation limits positions [rec] = []
        ↔ sizeToFit limits positions (correlationStep positions rec) < 10)
    ∧ sizeToFit limits positions (correlationStep positions rec)
        = (if min (min (min (limits.max_total_exposure - totalExposure positions)
                (limits.max_per_event
                  - eventExposure positions (correlationStep positions rec).event_id))
                (limits.max_per_league
                  - leagueExposure positions (correlationStep positions rec).league))
              limits.max_per_market ≤ 0
            ∨ (correlationStep positions rec).entry_price ≤ 0
          then 0
          else pyInt (min (min (min (limits.max_total_exposure - totalExposure positions)
                (limits.max_per_event
                  - eventExposure positions (correlationStep positions rec).event_id))
                (limits.max_per_league
                  - leagueExposure positions (correlationStep positions rec).league))
              limits.max_per_market / (correlationStep positions rec).entry_price)) := by
  have hone : adjustOne limits positions rec =
      (if 10 ≤ sizeToFit limits positions (correlationStep positions rec)
       then some { correlationStep positions rec with
                    risk_flags := (correlationStep positions rec).risk_flags
                      ++ (checkLimits limits positions (correlationStep positions rec)).2,
                    max_size := sizeToFit limits positions (correlationStep positions rec) }
       else none) := by
    simp only [adjustOne, hviol, Bool.false_eq_true, if_false]
  refine ⟨?_, ?_, rfl⟩
  · intro r hr
    simp only [adjustForCorrelation, List.filterMap_cons, List.filterMap_nil, hone] at hr
    rcases le_or_lt 10 (sizeToFit limits positions (correlationStep positions rec)) with h10 | h10
    · rw [if_pos h10] at hr
      simp only [List.mem_cons, List.not_mem_nil, or_false] at hr
      subst hr
      rfl
    · rw [if_neg (not_le.mpr h10)] at hr
      simp at hr
  · simp only [adjustForCorrelation, List.filterMap_cons, List.filterMap_nil, hone]
    rcases le_or_lt 10 (sizeToFit limits positions (correlationStep positions rec)) with h10 | h10
    · rw [if_pos h10]
      simp only [List.cons_ne_self, false_iff, not_lt]
      exact h10
    · rw [if_neg (not_le.mpr h10)]
      simp [h10]

/-- C6, witness for the amended theorem, at the concrete over-limit
scenario of the counterexample. -/
theorem size_to_fit_and_drop_witness :
    (∀ r ∈ adjustForCorrelation {} [posM400] [recM200],
        r.max_size = sizeToFit {} [posM400] (correlationStep [posM400] recM200))
    ∧ (adjustForCorrelation {} [posM400] [recM200] = []
        ↔ sizeToFit {} [posM400] (correlationStep [posM400] recM200) < 10) := by
  have h := size_to_fit_and_drop {} [posM400] recM200
    (by norm_num +decide [checkLimits, correlationStep, posM400, recM200, totalExposure,
      marketExposure, eventExposure, leagueExposure, PortfolioPosition.exposure,
      List.filter_cons])
  exact ⟨h.1, h.2.1⟩

/-! ## Claim C7 — `rank_all` partitions candidates into recommendations and watchlist -/

/-- Each `rank_all` loop iteration yields the built recommendation when both
thresholds pass and the watchlist candidate otherwise. -/
theorem rankAllStep_eq (cfg : RankerConfig) (md : List (String × Market))
    (agg : AggregatedSignal) :
    rankAllStep cfg md agg =
      if rankPasses cfg md agg then Sum.inl (buildRecFor cfg md agg)
      else Sum.inr (buildCandFor cfg md agg) := by
  simp only [rankAllStep, rankPasses, buildRecFor, buildCandFor, rejectionReasonsFor]
  by_cases hev : calculateExpectedValue agg
      (entryPriceFor agg (marketFor md agg.market_id)) (marketFor md agg.market_id)
      < cfg.min_ev
  · by_cases hcf : agg.confidence < cfg.min_confidence
    · simp [hev, hcf, not_le.mpr hev]
    · simp [hev, hcf, not_le.mpr hev, not_lt.mp hcf]
  · by_cases hcf : agg.confidence < cfg.min_confidence
    · simp [hev, hcf, not_lt.mp hev, not_le.mpr hcf]
    · simp [hev, hcf, not_lt.mp hev, not_lt.mp hcf]

/-- The `rank_all` loop separates the input into the passing signals' built
recommendations and the failing signals' candidates, in input order. -/
theorem rankAllLoop_eq (cfg : RankerConfig) (md : List (String × Market))
    (aggs : List AggregatedSignal) :
    rankAllLoop cfg md aggs =
      ((aggs.filter (rankPasses cfg md)).map (buildRecFor cfg md),
       (aggs.filter (fun a => ! rankPasses cfg md a)).map (buildCandFor cfg md)) := by
  induction aggs with
  | nil => rfl
  | cons a rest ih =>
    simp only [rankAllLoop, ih, rankAllStep_eq, List.filter_cons]
    by_cases h : rankPasses cfg md a
    · simp [h]
    · simp [h]

/-- Descending `Sorted` for recommendations from a `mergeSort recDesc`. -/
theorem sorted_of_mergeSort_recDesc (l : List Recommendation) :
    List.Sorted (fun a b : Recommendation => b.rank_score ≤ a.rank_score)
      (l.mergeSort recDesc) := by
  have h := @List.sorted_mergeSort Recommendation recDesc
    (fun a b c hab hbc => by
      simp only [recDesc, decide_eq_true_eq] at *
      exact le_trans hbc hab)
    (fun a b => by
      simp only [recDesc, Bool.or_eq_true, decide_eq_true_eq]
      exact le_total b.rank_score a.rank_score)
    l
  exact h.imp (fun hab => by simpa [recDesc] using hab)

/-- Descending `Sorted` for candidates from a `mergeSort candDesc`. -/
theorem sorted_of_mergeSort_candDesc (l : List CandidateOpportunity) :
    List.Sorted (fun a b : CandidateOpportunity => b.rank_score ≤ a.rank_score)
      (l.mergeSort candDesc) := by
  have h := @List.sorted_mergeSort CandidateOpportunity candDesc
    (fun a b c hab hbc => by
      simp only [candDesc, decide_eq_true_eq] at *
      exact le_trans hbc hab)
    (fun a b => by
      simp only [candDesc, Bool.or_eq_true, decide_eq_true_eq]
      exact le_total b.rank_score a.rank_score)
    l
  exact h.imp (fun hab => by simpa [candDesc] using hab)

/-- C7: `rank_all` partitions the evaluated signals: exactly the candidates
with `EV ≥ min_ev` and `confidence ≥ min_confidence` (empty rejection
reasons) become recommendations, sorted in descending `rank_score` and
truncated to `max_recommendations`; every other candidate lands on the
watchlist with a non-empty rejection-reason list, sorted in descending
`rank_score`, untruncated; and `is_recommended` holds exactly when
`rejection_reasons` is empty. -/
theorem rank_all_partitions (cfg : RankerConfig) (aggs : List AggregatedSignal)
    (md : List (String × Market)) :
    (rankAll cfg aggs md).1
      = (((aggs.filter (rankPasses cfg md)).map (buildRecFor cfg md)).mergeSort
          recDesc).take cfg.max_recommendations
    ∧ List.Sorted (fun a b : Recommendation => b.rank_score ≤ a.rank_score)
        (rankAll cfg aggs md).1
    ∧ (rankAll cfg aggs md).1.length ≤ cfg.max_recommendations
    ∧ (∀ r ∈ (rankAll cfg aggs md).1,
        cfg.min_ev ≤ r.expected_value ∧ cfg.min_confidence ≤ r.confidence)
    ∧ (rankAll cfg aggs md).2
        = ((aggs.filter (fun a => ! rankPasses cfg md a)).map
            (buildCandFor cfg md)).mergeSort candDesc
    ∧ List.Sorted (fun a b : CandidateOpportunity => b.rank_score ≤ a.rank_score)
        (rankAll cfg aggs md).2
    ∧ (∀ c ∈ (rankAll cfg aggs md).2, c.rejection_reasons ≠ [])
    ∧ (∀ c : CandidateOpportunity, c.is_recommended ↔ c.rejection_reasons = []) := by
  have hloop := rankAllLoop_eq cfg md aggs
  have h1 : (rankAll cfg aggs md).1
      = (((aggs.filter (rankPasses cfg md)).map (buildRecFor cfg md)).mergeSort
          recDesc).take cfg.max_recommendations := by
    simp only [rankAll, hloop]
  have h5 : (rankAll cfg aggs md).2
      = ((aggs.filter (fun a => ! rankPasses cfg md a)).map
          (buildCandFor cfg md)).mergeSort candDesc := by
    simp only [rankAll, hloop]
  refine ⟨h1, ?_, ?_, ?_, h5, ?_, ?_, ?_⟩
  · rw [h1]
    exact (sorted_of_mergeSort_recDesc _).sublist (List.take_sublist _ _)
  · rw [h1]
    exact List.length_take_le _ _
  · intro r hr
    rw [h1] at hr
    have hr2 := (List.mergeSort_perm _ recDesc).mem_iff.mp
      ((List.take_sublist _ _).mem hr)
    rcases List.mem_map.mp hr2 with ⟨a, ha, rfl⟩
    have hp := List.of_mem_filter ha
    simp only [rankPasses, Bool.and_eq_true, decide_eq_true_eq] at hp
    exact ⟨hp.1, hp.2⟩
  · rw [h5]
    exact sorted_of_mergeSort_candDesc _
  · intro c hc
    rw [h5] at hc
    have hc2 := (List.mergeSort_perm _ candDesc).mem_iff.mp hc
    rcases List.mem_map.mp hc2 with ⟨a, ha, rfl⟩
    have hp := List.of_mem_filter ha
    simp only [Bool.not_eq_true', rankPasses, Bool.and_eq_false_iff,
      decide_eq_false_iff_not, not_le] at hp
    simp only [buildCandFor, buildCandidate, rejectionReasonsFor]
    rcases hp with hev | hcf
    · simp [hev]
    · simp [hcf]
  · intro c
    unfold CandidateOpportunity.is_recommended
    exact List.length_eq_zero

/-! ## Claim C8 — correlation averaging and the independent signal count -/

/-- A successful aggregation's correlation fields, read off the success
path of `aggregate`. -/
theorem aggregate_some_spec {cfg : AggregatorConfig} {signals : List Signal}
    {agg : AggregatedSignal} (h : aggregate cfg signals = some agg) :
    agg.contributing_signals = directionalOf signals
    ∧ agg.avg_correlation
        = avgCorrelationOf (compute_pairwise_correlations (directionalOf signals))
    ∧ agg.independent_signal_count
        = ((directionalOf signals).length : ℚ)
          / (1 + (((directionalOf signals).length : ℚ) - 1) * agg.avg_correlation)
    ∧ directionalOf signals ≠ [] := by
  simp only [aggregate] at h
  by_cases h1 : signals.length < cfg.min_signals
  · rw [if_pos h1] at h
    exact absurd h (by simp)
  rw [if_neg h1] at h
  by_cases h2 : directionalOf signals = []
  · rw [if_pos h2] at h
    exact absurd h (by simp)
  rw [if_neg h2] at h
  by_cases h3 : (directionalOf signals).length < cfg.min_signals
  · rw [if_pos h3] at h
    exact absurd h (by simp)
  rw [if_neg h3] at h
  have hlen : 0 < (directionalOf signals).length := List.length_pos.mpr h2
  have main : ∀ (mid : String) (dir : SignalDirection) (score : ℚ) (cnt : ℕ),
      aggregate.aggregateRest cfg (directionalOf signals) mid dir score cnt = some agg →
      agg.contributing_signals = directionalOf signals
      ∧ agg.avg_correlation
          = avgCorrelationOf (compute_pairwise_correlations (directionalOf signals))
      ∧ agg.independent_signal_count
          = ((directionalOf signals).length : ℚ)
            / (1 + (((directionalOf signals).length : ℚ) - 1) * agg.avg_correlation)
      ∧ directionalOf signals ≠ [] := by
    intro mid dir score cnt hrest
    simp only [aggregate.aggregateRest] at hrest
    by_cases hreq : (cfg.require_agreement = true
        ∧ (cnt : ℚ) / ((directionalOf signals).length : ℚ) < cfg.min_agreement_ratio)
    · rw [if_pos hreq] at hrest
      exact absurd hrest (by simp)
    · rw [if_neg hreq] at hrest
      obtain rfl := Option.some.inj hrest
      refine ⟨rfl, rfl, ?_, h2⟩
      show (if 0 < (directionalOf signals).length
          then ((directionalOf signals).length : ℚ)
            / (1 + (((directionalOf signals).length : ℚ) - 1)
                * avgCorrelationOf (compute_pairwise_correlations (directionalOf signals)))
          else 0)
        = ((directionalOf signals).length : ℚ)
          / (1 + (((directionalOf signals).length : ℚ) - 1)
              * avgCorrelationOf (compute_pairwise_correlations (directionalOf signals)))
      rw [if_pos hlen]
  by_cases h4 : directionScore cfg SignalDirection.NO (directionalOf signals)
      < directionScore cfg SignalDirection.YES (directionalOf signals)
  · rw [if_pos h4] at h
    exact main _ _ _ _ h
  rw [if_neg h4] at h
  by_cases h5 : directionScore cfg SignalDirection.YES (directionalOf signals)
      < directionScore cfg SignalDirection.NO (directionalOf signals)
  · rw [if_pos h5] at h
    exact main _ _ _ _ h
  · rw [if_neg h5] at h
    exact absurd h (by simp)

set_option maxHeartbeats 1000000 in
/-- C8, counterexample: three directional signals where two share the name
`a` (features `{x}`, `{x}`, `{y}`).  The true mean Jaccard overlap over the
three unordered pairs is 1/3, but the dict keyed by sorted name pairs lets
the last `(a,b)` pair overwrite the first, so the aggregator reports
`avg_correlation = 0` and `independent_signal_count = 3` instead of the
claimed 1/3 and 9/5. -/
theorem aggregate_correlation_name_collision :
    (aggregate {} [sigAx, sigBx, sigAy]).map AggregatedSignal.avg_correlation = some 0
    ∧ (aggregate {} [sigAx, sigBx, sigAy]).map AggregatedSignal.independent_signal_count
        = some 3
    ∧ pairwiseMeanOverlap [sigAx, sigBx, sigAy] = 1/3
    ∧ (0 : ℚ) ≠ 1/3
    ∧ (3 : ℚ) ≠ 3 / (1 + (3 - 1) * (1/3)) := by
  have hdir : directionalOf [sigAx, sigBx, sigAy] = [sigAx, sigBx, sigAy] := by
    simp +decide [directionalOf, sigAx, sigBx, sigAy, Signal.make, List.filter_cons]
  have hyes : directionScore {} SignalDirection.YES [sigAx, sigBx, sigAy] = 3 := by
    norm_num +decide [directionScore, AggregatorConfig.weightOf, dictGetD,
      Signal.composite_score, sigAx, sigBx, sigAy, Signal.make, List.filter_cons]
  have hno : directionScore {} SignalDirection.NO [sigAx, sigBx, sigAy] = 0 := by
    norm_num +decide [directionScore, AggregatorConfig.weightOf, dictGetD,
      Signal.composite_score, sigAx, sigBx, sigAy, Signal.make, List.filter_cons]
  have hcnt : directionCount SignalDirection.YES [sigAx, sigBx, sigAy] = 3 := by
    simp +decide [directionCount, sigAx, sigBx, sigAy, Signal.make, List.filter_cons]
  have hcorr : compute_pairwise_correlations [sigAx, sigBx, sigAy]
      = [(("a", "b"), 0), (("a", "a"), 0)] := by
    simp +decide [compute_pairwise_correlations, upperPairs, dictInsert, sortedKey,
      compute_feature_overlap, sigAx, sigBx, sigAy, Signal.make, List.foldl]
  refine ⟨?_, ?_, ?_, by norm_num, by norm_num⟩
  · simp only [aggregate, aggregate.aggregateRest, hdir, hyes, hno, hcnt, hcorr]
    norm_num [avgCorrelationOf]
    exact ⟨_, ⟨by simp, rfl⟩, rfl⟩
  · simp only [aggregate, aggregate.aggregateRest, hdir, hyes, hno, hcnt, hcorr]
    norm_num [avgCorrelationOf]
    exact ⟨_, ⟨by simp, rfl⟩, rfl⟩
  · have hp : upperPairs [sigAx, sigBx, sigAy]
        = [(sigAx, sigBx), (sigAx, sigAy), (sigBx, sigAy)] := by
      simp [upperPairs]
    have ho1 : compute_feature_overlap sigAx sigBx = 1 := by
      simp +decide [compute_feature_overlap, sigAx, sigBx, Signal.make]
    have ho2 : compute_feature_overlap sigAx sigAy = 0 := by
      simp +decide [compute_feature_overlap, sigAx, sigAy, Signal.make]
    have ho3 : compute_feature_overlap sigBx sigAy = 0 := by
      simp +decide [compute_feature_overlap, sigBx, sigAy, Signal.make]
    simp only [pairwiseMeanOverlap, hp]
    norm_num [ho1, ho2, ho3]
    simp

/-- C8, amended: for a successful aggregation over directional signals with
*pairwise-distinct names*, `avg_correlation` is the mean Jaccard overlap
over all unordered pairs (0 if fewer than two signals), and
`independent_signal_count = n / (1 + (n−1)·avg_correlation)` holds for
every successful aggregation; the two special cases hold for every
successful aggregation regardless of names: identical non-empty feature
sets (n ≥ 2) give `avg_correlation = 1` and `independent_signal_count = 1`,
and pairwise-disjoint feature sets give `avg_correlation = 0` and
`independent_signal_count = n`. -/
theorem aggregate_correlation_fields (cfg : AggregatorConfig) (signals : List Signal)
    (agg : AggregatedSignal) (h : aggregate cfg signals = some agg) :
    ((agg.contributing_signals.map Signal.name).Nodup →
        agg.avg_correlation = pairwiseMeanOverlap agg.contributing_signals)
    ∧ agg.independent_signal_count
        = (agg.contributing_signals.length : ℚ)
          / (1 + ((agg.contributing_signals.length : ℚ) - 1) * agg.avg_correlation)
    ∧ (2 ≤ agg.contributing_signals.length →
        ∀ F : Finset String, F ≠ ∅ →
        (∀ s ∈ agg.contributing_signals, s.features_used.toFinset = F) →
        agg.avg_correlation = 1 ∧ agg.independent_signal_count = 1)
    ∧ (List.Pairwise
          (fun s t => s.features_used.toFinset ∩ t.features_used.toFinset = ∅)
          agg.contributing_signals →
        agg.avg_correlation = 0
        ∧ agg.independent_signal_count = (agg.contributing_signals.length : ℚ)) := by
  obtain ⟨hcs, havg, hind, hne⟩ := aggregate_some_spec h
  rw [hcs] at *
  have hn_pos : 0 < (directionalOf signals).length := List.length_pos.mpr hne
  have hn_ne : ((directionalOf signals).length : ℚ) ≠ 0 := Nat.cast_ne_zero.mpr hn_pos.ne'
  refine ⟨?_, hind, ?_, ?_⟩
  · intro hnodup
    rw [havg]
    exact avgCorrelation_eq_mean hnodup
  · intro h2 F hFne hall
    have hover : ∀ ab ∈ upperPairs (directionalOf signals),
        compute_feature_overlap ab.1 ab.2 = 1 := by
      intro ab hab
      have hm := upperPairs_mem hab
      have h1 := hall ab.1 hm.1
      have hb := hall ab.2 hm.2
      unfold compute_feature_overlap
      rw [h1, hb]
      have hcard : (F.card : ℚ) ≠ 0 :=
        Nat.cast_ne_zero.mpr (Finset.card_ne_zero.mpr (Finset.nonempty_iff_ne_empty.mpr hFne))
      rw [if_neg (by simp [hFne]), Finset.union_self, if_neg hFne, Finset.inter_self,
        div_self hcard]
    have havg1 : agg.avg_correlation = 1 := by
      rw [havg]
      exact avgCorrelation_const (upperPairs_ne_nil h2) hover
    refine ⟨havg1, ?_⟩
    rw [hind, havg1]
    rw [show (1 : ℚ) + (((directionalOf signals).length : ℚ) - 1) * 1
      = ((directionalOf signals).length : ℚ) by ring]
    exact div_self hn_ne
  · intro hdisj
    have hover : ∀ ab ∈ upperPairs (directionalOf signals),
        compute_feature_overlap ab.1 ab.2 = 0 := by
      intro ab hab
      have hd := upperPairs_pairwise hdisj ab hab
      unfold compute_feature_overlap
      by_cases hemp : ab.1.features_used.toFinset = ∅ ∨ ab.2.features_used.toFinset = ∅
      · rw [if_pos hemp]
      · rw [if_neg hemp]
        split
        · rfl
        · rw [hd]
          simp
    have havg0 : agg.avg_correlation = 0 := by
      rw [havg]
      rcases eq_or_ne (upperPairs (directionalOf signals)) [] with hp | hp
      · rw [show compute_pairwise_correlations (directionalOf signals) = [] by
          rw [compute_pairwise_correlations_as_fold, hp]
          rfl]
        rfl
      · exact avgCorrelation_const hp hover
    refine ⟨havg0, ?_⟩
    rw [hind, havg0]
    simp

set_option maxHeartbeats 1000000 in
/-- C8, witness for the amended theorem: two signals named `a` and `b`, both
with feature set `{x}`: the names are distinct, the mean overlap over the
single pair is 1, and the aggregation reports `avg_correlation = 1` and
`independent_signal_count = 1`. -/
theorem aggregate_correlation_fields_witness :
    aggTwoIdentical.avg_correlation = pairwiseMeanOverlap aggTwoIdentical.contributing_signals
    ∧ aggTwoIdentical.avg_correlation = 1
    ∧ aggTwoIdentical.independent_signal_count = 1 := by
  have hagg : aggregate {} [sigAx, sigBx] = some aggTwoIdentical := by
    have hdir : directionalOf [sigAx, sigBx] = [sigAx, sigBx] := by
      simp +decide [directionalOf, sigAx, sigBx, Signal.make, List.filter_cons]
    have hyes : directionScore {} SignalDirection.YES [sigAx, sigBx] = 2 := by
      norm_num +decide [directionScore, AggregatorConfig.weightOf, dictGetD,
        Signal.composite_score, sigAx, sigBx, Signal.make, List.filter_cons]
    have hno : directionScore {} SignalDirection.NO [sigAx, sigBx] = 0 := by
      norm_num +decide [directionScore, AggregatorConfig.weightOf, dictGetD,
        Signal.composite_score, sigAx, sigBx, Signal.make, List.filter_cons]
    have hcnt : directionCount SignalDirection.YES [sigAx, sigBx] = 2 := by
      simp +decide [directionCount, sigAx, sigBx, Signal.make, List.filter_cons]
    have hcorr : compute_pairwise_correlations [sigAx, sigBx] = [(("a", "b"), 1)] := by
      simp +decide [compute_pairwise_correlations, upperPairs, dictInsert, sortedKey,
        compute_feature_overlap, sigAx, sigBx, Signal.make, List.foldl]
    have hw : directionWeight {} SignalDirection.YES [sigAx, sigBx] = 2 := by
      norm_num +decide [directionWeight, AggregatorConfig.weightOf, dictGetD,
        sigAx, sigBx, Signal.make, List.filter_cons]
    have hwu : weightsUsed {} [sigAx, sigBx] = [("a", 1), ("b", 1)] := by
      simp +decide [weightsUsed, dictInsert, AggregatorConfig.weightOf, dictGetD,
        sigAx, sigBx, Signal.make, List.foldl]
    simp only [aggregate, aggregate.aggregateRest, hdir, hyes, hno, hcnt, hcorr, hw, hwu]
    rw [if_neg (by norm_num), if_neg (by simp), if_neg (by norm_num), if_pos (by norm_num),
      if_neg (by norm_num)]
    norm_num [avgCorrelationOf, aggTwoIdentical]
    constructor
    · simp [sigAx, Signal.make]
    · norm_num [sigAx, sigBx, Signal.make]
  have h := aggregate_correlation_fields {} [sigAx, sigBx] aggTwoIdentical hagg
  have hspecial := h.2.2.1 (by norm_num +decide [aggTwoIdentical])
    (List.toFinset ["x"])
    (by decide)
    (by
      intro s hs
      rcases List.mem_pair.mp hs with rfl | rfl <;> rfl)
  exact ⟨h.1 (by decide), hspecial.1, hspecial.2⟩

/-! ## Claim C9 — `PositionSizer.calculate` is clamped into `[min_size, max_size]` -/

/-- C9: with the default sizing parameters, `calculate` always returns a
size between `min_size = 10` and `max_size = 500`, for every combination of
inputs — in particular it never returns 0, even at zero confidence or zero
liquidity. -/
theorem sizer_calculate_bounded (conf e liq : ℚ) (ttr depth bank : Option ℚ) :
    10 ≤ sizerCalculate {} conf e liq ttr depth bank
    ∧ sizerCalculate {} conf e liq ttr depth bank ≤ 500
    ∧ sizerCalculate {} conf e liq ttr depth bank ≠ 0 := by
  have h : 10 ≤ sizerCalculate {} conf e liq ttr depth bank
      ∧ sizerCalculate {} conf e liq ttr depth bank ≤ 500 := pyInt_clamp_bounds _
  exact ⟨h.1, h.2, by omega⟩

/-! ## Claim C10 — the backtest capital stays positive -/

/-- A successful fill fills a positive quantity, never more than requested,
at a price of at most 0.99. -/
theorem simulateFill_some_bounds {m : FillModel} {side : SignalDirection}
    {size price depth vol spread r1 r2 : ℚ} {f : Fill} {c : ℕ}
    (h : simulateFill m side size price depth vol spread r1 r2 = (some f, c))
    (hminf : m.min_fill_pct ≤ 1) (hr2b : r2 ≤ 1) :
    0 < f.filled_size ∧ f.filled_size ≤ size ∧ f.avg_price ≤ 99/100 := by
  unfold simulateFill at h
  by_cases hg : size ≤ 0 ∨ depth ≤ 0
  · rw [if_pos hg] at h
    exact absurd h (by simp)
  rw [if_neg hg] at h
  push_neg at hg
  obtain ⟨hsz, hdep⟩ := hg
  set filled : ℚ :=
    (if depth < size then depth
     else if r1 < m.partial_fill_prob then
       (pyInt (size * (m.min_fill_pct + (1 - m.min_fill_pct) * r2)) : ℚ)
     else size) with hfilled_def
  by_cases hf0 : filled ≤ 0
  · rw [if_pos hf0] at h
    exact absurd h (by simp)
  rw [if_neg hf0] at h
  push_neg at hf0
  have hfle : filled ≤ size := by
    rw [hfilled_def]
    split
    · exact le_of_lt (by assumption)
    · split
      · have hpct : m.min_fill_pct + (1 - m.min_fill_pct) * r2 ≤ 1 := by
          have h1 : (1 - m.min_fill_pct) * r2 ≤ (1 - m.min_fill_pct) * 1 :=
            mul_le_mul_of_nonneg_left hr2b (by linarith)
          linarith
        have hx : size * (m.min_fill_pct + (1 - m.min_fill_pct) * r2) ≤ size := by
          calc size * (m.min_fill_pct + (1 - m.min_fill_pct) * r2)
              ≤ size * 1 := mul_le_mul_of_nonneg_left hpct (le_of_lt hsz)
            _ = size := mul_one size
        by_cases hxpos : 0 ≤ size * (m.min_fill_pct + (1 - m.min_fill_pct) * r2)
        · exact le_trans (pyInt_le hxpos) hx
        · push_neg at hxpos
          have := pyInt_nonpos (le_of_lt hxpos)
          calc ((pyInt (size * (m.min_fill_pct + (1 - m.min_fill_pct) * r2))) : ℚ)
              ≤ 0 := by exact_mod_cast this
            _ ≤ size := le_of_lt hsz
      · exact le_refl size
  simp only [Prod.mk.injEq] at h
  obtain rfl := Option.some.inj h.1
  refine ⟨hf0, hfle, ?_⟩
  exact max_le (by norm_num) (min_le_left _ _)

/-- Executing one signal keeps the capital strictly positive (each order
costs at most `max_position_pct · (0.99 + fee)` of the current capital) and
keeps all position sizes non-negative. -/
theorem executeSignal_invariant (cfg : BacktestConfig) (fm : FillModel)
    (signal : BTSignal) (snapshot : BTSnapshot) (state : BacktestState)
    (rng : ℕ → ℚ) (k : ℕ)
    (hc : 0 < state.capital)
    (hpos : ∀ p ∈ state.positions, 0 ≤ p.size)
    (hfee : 0 ≤ cfg.fee_per_contract)
    (hmp : cfg.max_position_pct * (99/100 + cfg.fee_per_contract) < 1)
    (hminf : fm.min_fill_pct ≤ 1)
    (hrng : ∀ n, 0 ≤ rng n ∧ rng n ≤ 1) :
    0 < (executeSignal cfg fm signal snapshot state rng k).1.capital
    ∧ ∀ p ∈ (executeSignal cfg fm signal snapshot state rng k).1.positions, 0 ≤ p.size := by
  unfold executeSignal
  by_cases hsz : min signal.max_size (state.capital * cfg.max_position_pct) < 10
  · rw [if_pos hsz]
    exact ⟨hc, hpos⟩
  rw [if_neg hsz]
  push_neg at hsz
  rcases hfill : simulateFill fm signal.direction
      (min signal.max_size (state.capital * cfg.max_position_pct))
      (snapshot.price.getD (1/2)) (snapshot.depth.getD 1000)
      (1/100) (1/50) (rng k) (rng (k + 1)) with ⟨fillq, consumed⟩
  match fillq with
  | none => exact ⟨hc, hpos⟩
  | some fill =>
    obtain ⟨hf0, hfle, hfavg⟩ :=
      simulateFill_some_bounds hfill hminf (hrng (k + 1)).2
    have hsize_le : min signal.max_size (state.capital * cfg.max_position_pct)
        ≤ state.capital * cfg.max_position_pct := min_le_right _ _
    have hfeepos : (0 : ℚ) < 99/100 + cfg.fee_per_contract := by linarith
    have hcost_le : fill.filled_size * fill.avg_price
        + fill.filled_size * cfg.fee_per_contract
        < state.capital := by
      calc fill.filled_size * fill.avg_price + fill.filled_size * cfg.fee_per_contract
          = fill.filled_size * (fill.avg_price + cfg.fee_per_contract) := by ring
        _ ≤ fill.filled_size * (99/100 + cfg.fee_per_contract) := by
            apply mul_le_mul_of_nonneg_left _ (le_of_lt hf0)
            linarith
        _ ≤ min signal.max_size (state.capital * cfg.max_position_pct)
              * (99/100 + cfg.fee_per_contract) :=
            mul_le_mul_of_nonneg_right hfle (le_of_lt hfeepos)
        _ ≤ state.capital * cfg.max_position_pct * (99/100 + cfg.fee_per_contract) :=
            mul_le_mul_of_nonneg_right hsize_le (le_of_lt hfeepos)
        _ = state.capital * (cfg.max_position_pct * (99/100 + cfg.fee_per_contract)) := by
            ring
        _ < state.capital * 1 := by
            exact mul_lt_mul_of_pos_left hmp hc
        _ = state.capital := mul_one _
    have hcost_nofee_le : fill.filled_size * fill.avg_price < state.capital := by
      have : 0 ≤ fill.filled_size * cfg.fee_per_contract :=
        mul_nonneg (le_of_lt hf0) hfee
      linarith
    constructor
    · by_cases hif : cfg.include_fees = true
      · simp only [hif, if_true]
        linarith
      · simp only [eq_false_of_ne_true hif, Bool.false_eq_true, if_false]
        linarith
    · intro p hp
      by_cases hif : cfg.include_fees = true
      · simp only [hif, if_true, List.mem_append, List.mem_singleton] at hp
        rcases hp with hp | rfl
        · exact hpos p hp
        · exact le_of_lt hf0
      · simp only [eq_false_of_ne_true hif, Bool.false_eq_true, if_false,
          List.mem_append, List.mem_singleton] at hp
        rcases hp with hp | rfl
        · exact hpos p hp
        · exact le_of_lt hf0

/-- Settling positions only credits non-negative payouts, and keeps
position sizes non-negative. -/
theorem checkSettlements_invariant (snapshot : BTSnapshot) (state : BacktestState)
    (hc : 0 < state.capital)
    (hpos : ∀ p ∈ state.positions, 0 ≤ p.size) :
    0 < (checkSettlements snapshot state).capital
    ∧ ∀ p ∈ (checkSettlements snapshot state).positions, 0 ≤ p.size := by
  constructor
  · have hsum : 0 ≤ ((state.positions.filter
        (fun p => dictMem snapshot.settled_markets p.market_id)).map
        (fun p =>
          if dictGetD snapshot.settled_markets p.market_id SignalDirection.NEUTRAL
              = p.direction
          then p.size * 1 else 0)).sum := by
      apply List.sum_nonneg
      intro x hx
      rcases List.mem_map.mp hx with ⟨p, hpmem, rfl⟩
      have hp := hpos p (List.mem_of_mem_filter hpmem)
      split
      · linarith
      · exact le_refl 0
    show 0 < state.capital + _
    linarith
  · intro p hp
    exact hpos p (List.mem_of_mem_filter hp)

/-- Executing a whole snapshot's worth of signals preserves the capital and
position-size invariants. -/
theorem executeAll_invariant (cfg : BacktestConfig) (fm : FillModel)
    (snapshot : BTSnapshot) (rng : ℕ → ℚ)
    (hfee : 0 ≤ cfg.fee_per_contract)
    (hmp : cfg.max_position_pct * (99/100 + cfg.fee_per_contract) < 1)
    (hminf : fm.min_fill_pct ≤ 1)
    (hrng : ∀ n, 0 ≤ rng n ∧ rng n ≤ 1) :
    ∀ (signals : List BTSignal) (state : BacktestState) (k : ℕ),
      0 < state.capital →
      (∀ p ∈ state.positions, 0 ≤ p.size) →
      0 < (executeAll cfg fm signals snapshot state rng k).1.capital
      ∧ ∀ p ∈ (executeAll cfg fm signals snapshot state rng k).1.positions, 0 ≤ p.size := by
  intro signals
  induction signals with
  | nil =>
    intro state k hc hpos
    exact ⟨hc, hpos⟩
  | cons s rest ih =>
    intro state k hc hpos
    have hstep := executeSignal_invariant cfg fm s snapshot state rng k hc hpos
      hfee hmp hminf hrng
    simpa only [executeAll, List.foldl_cons] using
      ih (executeSignal cfg fm s snapshot state rng k).1
        (executeSignal cfg fm s snapshot state rng k).2 hstep.1 hstep.2

/-- The replay loop keeps the capital strictly positive after every
processed snapshot: positive at the end and positive at each recorded
equity point. -/
theorem runLoop_invariant (cfg : BacktestConfig) (fm : FillModel)
    (gens : List BTGenerator) (rng : ℕ → ℚ)
    (hfee : 0 ≤ cfg.fee_per_contract)
    (hmp : cfg.max_position_pct * (99/100 + cfg.fee_per_contract) < 1)
    (hminf : fm.min_fill_pct ≤ 1)
    (hrng : ∀ n, 0 ≤ rng n ∧ rng n ≤ 1) :
    ∀ (snaps : List BTSnapshot) (state : BacktestState) (k : ℕ),
      0 < state.capital →
      (∀ p ∈ state.positions, 0 ≤ p.size) →
      0 < (runLoop cfg fm gens rng snaps state k).1.capital
      ∧ ∀ e ∈ (runLoop cfg fm gens rng snaps state k).2, 0 < e.2 := by
  intro snaps
  induction snaps with
  | nil =>
    intro state k hc _
    exact ⟨hc, by simp [runLoop]⟩
  | cons snap rest ih =>
    intro state k hc hpos
    by_cases h1 : snap.timestamp < cfg.start_date
    · simpa only [runLoop, if_pos h1] using ih state k hc hpos
    by_cases h2 : cfg.end_date < snap.timestamp
    · refine ⟨?_, ?_⟩ <;> simp only [runLoop, if_neg h1, if_pos h2]
      · exact hc
      · simp
    have hsettle := checkSettlements_invariant snap state hc hpos
    have hexec := executeAll_invariant cfg fm snap rng hfee hmp hminf hrng
      (generateSignals snap gens) (checkSettlements snap state) k hsettle.1 hsettle.2
    have hrest := ih
      (executeAll cfg fm (generateSignals snap gens) snap
        (checkSettlements snap state) rng k).1
      (executeAll cfg fm (generateSignals snap gens) snap
        (checkSettlements snap state) rng k).2
      hexec.1 hexec.2
    refine ⟨?_, ?_⟩ <;> simp only [runLoop, if_neg h1, if_neg h2]
    · exact hrest.1
    · intro e he
      simp only [List.mem_cons] at he
      rcases he with rfl | he
      · exact hexec.1
      · exact hrest.2 e he

/-- C10, counterexample: at the boundary the claim's hypothesis allows,
`max_position_pct · (0.99 + fee) = 1`, a single fully-filled order at the
clamped maximum price 0.99 costs exactly the whole capital: after the
snapshot the capital is 0, not strictly positive. -/
theorem capital_zero_at_boundary :
    cfgBoundary.max_position_pct * (99/100 + cfgBoundary.fee_per_contract) ≤ 1
    ∧ 0 < cfgBoundary.initial_capital
    ∧ (simulatorRun cfgBoundary {} [genGreedy] (fun _ => 1/2) [snapRich]).1.capital = 0
    ∧ (simulatorRun cfgBoundary {} [genGreedy] (fun _ => 1/2) [snapRich]).2
        = [(1, 0)] := by
  refine ⟨by norm_num [cfgBoundary], by norm_num [cfgBoundary], ?_, ?_⟩
  · norm_num +decide [simulatorRun, runLoop, cfgBoundary, snapRich, genGreedy,
      checkSettlements, generateSignals, executeAll, executeSignal, simulateFill,
      estimateSlippage, dictMem, dictGetD, BacktestState.equity, List.filterMap,
      List.foldl, min_def, max_def, pyInt]
  · norm_num +decide [simulatorRun, runLoop, cfgBoundary, snapRich, genGreedy,
      checkSettlements, generateSignals, executeAll, executeSignal, simulateFill,
      estimateSlippage, dictMem, dictGetD, BacktestState.equity, List.filterMap,
      List.foldl, min_def, max_def, pyInt]

/-- C10, amended: with a positive initial capital and
`max_position_pct · (0.99 + fee_per_contract) < 1` *strictly* (satisfied by
the defaults 0.05 and 0.01), a non-negative fee, a fill model whose
`min_fill_pct` is at most 1, and random draws in `[0, 1]`, the capital is
strictly positive after every processed snapshot and at the end of the run:
order costs are bounded by `max_position_pct · (0.99 + fee)` times the
current capital (fills never exceed the requested size, fill prices never
exceed 0.99) and settlements only add to capital. -/
theorem simulator_capital_positive (cfg : BacktestConfig) (fm : FillModel)
    (gens : List BTGenerator) (rng : ℕ → ℚ) (snaps : List BTSnapshot)
    (hinit : 0 < cfg.initial_capital)
    (hfee : 0 ≤ cfg.fee_per_contract)
    (hmp : cfg.max_position_pct * (99/100 + cfg.fee_per_contract) < 1)
    (hminf : fm.min_fill_pct ≤ 1)
    (hrng : ∀ n, 0 ≤ rng n ∧ rng n ≤ 1) :
    0 < (simulatorRun cfg fm gens rng snaps).1.capital
    ∧ ∀ e ∈ (simulatorRun cfg fm gens rng snaps).2, 0 < e.2 :=
  runLoop_invariant cfg fm gens rng hfee hmp hminf hrng snaps
    { capital := cfg.initial_capital } 0 hinit (by simp)

/-- C10, witness for the amended theorem: the default configuration over a
single in-range snapshot with one greedy generator keeps the capital
strictly positive. -/
theorem simulator_capital_positive_witness :
    0 < (simulatorRun { start_date := 0, end_date := 100 } {} [genGreedy]
        (fun _ => 1/2) [snapRich]).1.capital
    ∧ ∀ e ∈ (simulatorRun { start_date := 0, end_date := 100 } {} [genGreedy]
        (fun _ => 1/2) [snapRich]).2, 0 < e.2 :=
  simulator_capital_positive { start_date := 0, end_date := 100 } {} [genGreedy]
    (fun _ => 1/2) [snapRich]
    (by norm_num) (by norm_num) (by norm_num) (by norm_num)
    (fun n => by norm_num)

end KalshiAlpha
